import Mathlib

/-!
# docker-iptables: container registry and firewall synchronizer

A shallow embedding of `src/iptables.go` and `src/docker.go`.

* Go strings are lists of characters (`GoString`); every string the program
  slices is ASCII (container ids, port keys such as `80/tcp`, names), so one
  character stands for one byte.
* Go maps are association lists; the order of the list is the order in which
  a `range` loop visits the map. The statements hold for every list, hence
  for every order of visit.
* The two external collaborators are parameters: `Host` is the process
  primitive `exec.Command(path, args...).CombinedOutput()`, a state machine
  over the state of the firewall tool; `Runtime` is the container runtime
  client (`InspectContainer`, `ListContainers`) as it answers while one event
  is handled.
* Effects are explicit: a `World` carries the state of the firewall tool and
  three traces (command lines printed by `call`, argument lists really run,
  runtime queries issued).
* A Go runtime panic is the `fault` outcome of `Run`.
* The regular expression of `removeContainerRules` is embedded for short ids
  made of ASCII letters and digits (container ids are hexadecimal); for them
  the pattern text is `^(\d+).*\[`, the id as a literal, `\]`. The code pastes
  the short id into the pattern unescaped; for the other short ids the result
  of `regexp.MustCompile` is a parameter (`RegexpPackage`): it panics, or it
  gives a compiled expression, and the statements hold for every such package.
* The registry lock is not modelled: each handler runs alone.
-/

set_option autoImplicit false

namespace DockerIptables

/-- Go `string`, one character per byte. -/
abbrev GoString := List Char

/-! ## Outcomes -/

/-- Reasons for which the process stops instead of returning. -/
inductive Fault where
  /-- Go runtime panic "slice bounds out of range". -/
  | sliceBounds
  /-- Panic of `regexp.MustCompile`: the pattern does not compile. -/
  | regexpCompile
  deriving DecidableEq, Repr

/-- Outcome of running a piece of the program: it returns a value, or the
process stops with a fault. -/
inductive Run (α : Type) where
  | done (a : α)
  | fault (f : Fault)
  deriving DecidableEq, Repr

/-- Go `error` values built by the program (the message text is not kept). -/
inductive GoError where
  /-- `fmt.Errorf("%s (%s)", out, err.Error())` in `call`. -/
  | execFailed (out : GoString)
  /-- `fmt.Errorf("Can't get chain %s rules list %s (%s)", ...)`. -/
  | listFailed (chain : GoString) (out : GoString)
  /-- `fmt.Errorf("Can't delete rule %s from chain %s (%s)", ...)`. -/
  | deleteFailed (line : GoString) (chain : GoString)
  /-- `fmt.Errorf("Can't create chain %s (%s)", ...)`. -/
  | createChainFailed (chain : GoString)
  /-- Error returned by `ListContainers`. -/
  | runtimeListFailed
  deriving DecidableEq, Repr

/-! ## Data model (`src/iptables.go` 14-26, `src/docker.go` 11-23) -/

/-- `type rule struct`. -/
structure rule where
  HostIp : GoString
  HostPort : Int
  Chain : GoString
  deriving DecidableEq, Repr

/-- `type portBind struct`. -/
structure portBind where
  Ip : GoString
  Port : Int
  deriving DecidableEq, Repr

/-- `type container struct`; `Ports` is `map[string][]portBind`. -/
structure container where
  Id : GoString
  Ip : GoString
  Name : GoString
  Ports : List (GoString × List portBind)
  deriving DecidableEq, Repr

/-- `type containerMap map[string]*container`. Records are never mutated after
they are built, so the pointer is the record. -/
abbrev containerMap := List (GoString × container)

/-- `type iptablesService struct`. `chains` is `map[string]bool`; only `true`
is ever stored, so the keys are kept. -/
structure iptablesService where
  IptablesPath : GoString
  DockerInterface : GoString
  Rules : List (GoString × List rule)
  chains : List GoString
  readOnly : Bool
  deriving DecidableEq, Repr

/-! ## Go map operations on association lists -/

/-- Map read `m[k]` with the comma-ok result. -/
def mapGet {β : Type} : List (GoString × β) → GoString → Option β
  | [], _ => none
  | (k, v) :: rest, key => if k = key then some v else mapGet rest key

/-- Deletion `delete(m, k)`. -/
def mapDelete {β : Type} : List (GoString × β) → GoString → List (GoString × β)
  | [], _ => []
  | (k, v) :: rest, key => if k = key then mapDelete rest key else (k, v) :: mapDelete rest key

/-- Assignment `m[k] = v`: the entry of `k` is replaced, or a new one is added. -/
def mapSet {β : Type} : List (GoString × β) → GoString → β → List (GoString × β)
  | [], key, val => [(key, val)]
  | (k, v) :: rest, key, val =>
    if k = key then (key, val) :: mapDelete rest key else (k, v) :: mapSet rest key val

/-! ## The external collaborators -/

/-- The process primitive: `exec.Command(path, args...).CombinedOutput()` run
in a state of the firewall tool gives the next state, the combined output and
whether `err != nil`. -/
structure Host (σ : Type) where
  exec : σ → GoString → List GoString → σ × GoString × Bool

/-- The two queries of the runtime client the program issues. -/
inductive Query where
  | list
  | inspect (id : GoString)
  deriving DecidableEq, Repr

/-- Effects of the program on the outside. -/
structure World (σ : Type) where
  /-- state of the firewall tool -/
  fw : σ
  /-- argument lists printed by `call` (`log.Printf` of the command line) -/
  logged : List (List GoString)
  /-- argument lists run through `exec.Command` -/
  ran : List (List GoString)
  /-- queries sent to the container runtime -/
  queries : List Query
  deriving DecidableEq, Repr

/-! ## Firewall synchronizer (`src/iptables.go`) -/

/-- `func (s *iptablesService) call(args ...string) error`. -/
def call {σ : Type} (h : Host σ) (s : iptablesService) (w : World σ)
    (args : List GoString) : World σ × Option GoError :=
  let w1 : World σ := ⟨w.fw, w.logged ++ [args], w.ran, w.queries⟩
  if s.readOnly then (w1, none)
  else
    let r := h.exec w1.fw s.IptablesPath args
    let w2 : World σ := ⟨r.1, w1.logged, w1.ran ++ [args], w1.queries⟩
    if r.2.2 then (w2, some (GoError.execFailed r.2.1)) else (w2, none)

/-- `func getShortId(id string) string`: `id[:12]` panics when `len(id) < 12`. -/
def getShortId (id : GoString) : Run GoString :=
  if 12 ≤ id.length then Run.done (id.take 12) else Run.fault Fault.sliceBounds

/-- `strconv.FormatInt(int64(n), 10)`. -/
def formatInt (n : Int) : GoString :=
  if n < 0 then '-' :: Nat.toDigits 10 n.natAbs else Nat.toDigits 10 n.natAbs

/-- `strings.HasSuffix(s, suffix)`. -/
def hasSuffix (s suffix : GoString) : Bool :=
  decide (suffix.length ≤ s.length) && (s.drop (s.length - suffix.length) == suffix)

/-- Slice expression `contPort[:len(contPort)-4]`: panics when the key has
fewer than 4 bytes. -/
def dropProtocol (contPort : GoString) : Run GoString :=
  if 4 ≤ contPort.length then Run.done (contPort.take (contPort.length - 4))
  else Run.fault Fault.sliceBounds

/-- Argument list of the command built at lines 100-112 of `src/iptables.go`
for one rule and one binding of one port key. The arguments are evaluated left
to right, so the port slice is taken before the short id. -/
def ruleCommand (s : iptablesService) (cont : container) (r : rule)
    (contPort : GoString) (bind : portBind) : Run (List GoString) :=
  let protocol : GoString := if hasSuffix contPort "/udp".toList then "udp".toList else "tcp".toList
  let hostIp : GoString := if r.HostIp.length = 0 then "0.0.0.0/0".toList else r.HostIp
  match dropProtocol contPort with
  | Run.fault f => Run.fault f
  | Run.done port =>
    match getShortId cont.Id with
    | Run.fault f => Run.fault f
    | Run.done shortId =>
      Run.done
        ["-t".toList, "nat".toList, "-A".toList, r.Chain, "-d".toList, hostIp, "!".toList,
          "-i".toList, s.DockerInterface, "-p".toList, protocol, "-m".toList, protocol,
          "--dport".toList, formatInt bind.Port, "-j".toList, "DNAT".toList,
          "--to-destination".toList, cont.Ip ++ ":".toList ++ port,
          "-m".toList, "comment".toList, "--comment".toList,
          "'Docker ".toList ++ cont.Name ++ "[".toList ++ shortId ++ "]'".toList]

/-- Innermost loop of `addContainerRules`: `for _, bind := range binds`. An
error of `call` is printed and dropped. -/
def addBinds {σ : Type} (h : Host σ) (s : iptablesService) (cont : container) (r : rule)
    (contPort : GoString) : List portBind → World σ → Run (World σ)
  | [], w => Run.done w
  | bind :: rest, w =>
    if bind.Port = r.HostPort then
      match ruleCommand s cont r contPort bind with
      | Run.fault f => Run.fault f
      | Run.done args => addBinds h s cont r contPort rest (call h s w args).1
    else addBinds h s cont r contPort rest w

/-- Middle loop of `addContainerRules`: `for contPort, binds := range cont.Ports`. -/
def addPorts {σ : Type} (h : Host σ) (s : iptablesService) (cont : container) (r : rule) :
    List (GoString × List portBind) → World σ → Run (World σ)
  | [], w => Run.done w
  | (contPort, binds) :: rest, w =>
    match addBinds h s cont r contPort binds w with
    | Run.fault f => Run.fault f
    | Run.done w1 => addPorts h s cont r rest w1

/-- Outer loop of `addContainerRules`: `for _, rule := range s.Rules[cont.Name]`. -/
def addRules {σ : Type} (h : Host σ) (s : iptablesService) (cont : container) :
    List rule → World σ → Run (World σ)
  | [], w => Run.done w
  | r :: rest, w =>
    match addPorts h s cont r cont.Ports w with
    | Run.fault f => Run.fault f
    | Run.done w1 => addRules h s cont rest w1

/-- `func (s *iptablesService) addContainerRules(cont *container) error`: the
returned error is always `nil`. -/
def addContainerRules {σ : Type} (h : Host σ) (s : iptablesService) (w : World σ)
    (cont : container) : Run (World σ × Option GoError) :=
  match addRules h s cont ((mapGet s.Rules cont.Name).getD []) w with
  | Run.fault f => Run.fault f
  | Run.done w1 => Run.done (w1, none)

/-! ### Removal: the tag pattern and `removeContainerRules`

`regexp.MustCompile` receives the text `^(\d+).*\[` + short id + `\]`.
Go compiles it with the Perl flags: `^` matches at the beginning of the text
only (the `m` flag is off), `.` matches every character but a newline (the
`s` flag is off), `\d` is an ASCII digit and the repetitions are greedy. -/

/-- A compiled expression, as `removeContainerRules` uses it:
`re.FindAllStringSubmatch(text, -1)`, each result the pair
(whole match, group 1). -/
abbrev Compiled := GoString → List (GoString × GoString)

/-- Go's `regexp` package on the patterns this file does not embed:
`regexp.MustCompile(pattern)` panics (`none`) or gives a compiled
expression. -/
structure RegexpPackage where
  compileOther : GoString → Option Compiled

/-- The text handed to `regexp.MustCompile` at line 76: the short id is pasted
between the two raw strings, unescaped. -/
def tagPattern (shortId : GoString) : GoString :=
  "^(\\d+).*\\[".toList ++ shortId ++ "\\]".toList

/-- Offset of the last occurrence of `pat` in `line`. -/
def lastIndex (pat : GoString) : GoString → Option Nat
  | [] => if pat = [] then some 0 else none
  | c :: cs =>
    match lastIndex pat cs with
    | some i => some (i + 1)
    | none => if pat.isPrefixOf (c :: cs) then some 0 else none

/-- The tag pattern tried at one offset of the text, `rest` being the text from
that offset on: the text of group 1 and the length of the whole match.
`^` holds at offset 0 only; `(\d+)` takes the whole run of digits (a shorter
run never helps, the character after it would be a digit, not `[`); `.*`
stays on the line and, being greedy, reaches the last tag of the line. -/
def matchAt (shortId : GoString) (offset : Nat) (rest : GoString) : Option (GoString × Nat) :=
  if offset ≠ 0 then none
  else
    let digits := rest.takeWhile Char.isDigit
    let line := (rest.dropWhile Char.isDigit).takeWhile (fun c => c ≠ '\n')
    if digits = [] then none
    else
      match lastIndex ("[".toList ++ shortId ++ "]".toList) line with
      | none => none
      | some i => some (digits, digits.length + i + (shortId.length + 2))

/-- Scan of `FindAllStringSubmatch(text, -1)`: `offset` is the position in the
text, `skip` the number of characters still covered by the previous match
(matches do not overlap). Each result is the pair (whole match, group 1). -/
def findAllFrom (shortId : GoString) : Nat → Nat → GoString → List (GoString × GoString)
  | _, _, [] => []
  | offset, skip + 1, _ :: cs => findAllFrom shortId (offset + 1) skip cs
  | offset, 0, c :: cs =>
    match matchAt shortId offset (c :: cs) with
    | some (group1, len) =>
      ((c :: cs).take len, group1) :: findAllFrom shortId (offset + 1) (len - 1) cs
    | none => findAllFrom shortId (offset + 1) 0 cs

/-- `re.FindAllStringSubmatch(string(out), -1)` for the pattern of a short id
made of letters and digits. -/
def findAllStringSubmatch (shortId : GoString) (out : GoString) : List (GoString × GoString) :=
  findAllFrom shortId 0 0 out

/-- `regexp.MustCompile(tagPattern shortId)`. A short id of ASCII letters and
digits is a literal of the pattern, which compiles to the expression embedded
above; any other short id may hold pattern syntax, and the package decides. -/
def mustCompileTag (re : RegexpPackage) (shortId : GoString) : Run Compiled :=
  if shortId.all Char.isAlphanum then Run.done (findAllStringSubmatch shortId)
  else
    match re.compileOther (tagPattern shortId) with
    | some compiled => Run.done compiled
    | none => Run.fault Fault.regexpCompile

/-- Arguments of the listing run at line 78. -/
def listArgs (chain : GoString) : List GoString :=
  ["-t".toList, "nat".toList, "-L".toList, chain, "-n".toList, "--line-numbers".toList]

/-- Arguments of the delete-by-line-number command of line 84. -/
def deleteArgs (chain line : GoString) : List GoString :=
  ["-t".toList, "nat".toList, "-D".toList, chain, line]

/-- Loop `for _, rule := range matches` of `removeContainerRules`; `rule[1]` is
group 1 of the match. -/
def deleteMatches {σ : Type} (h : Host σ) (s : iptablesService) (chain : GoString) :
    List (GoString × GoString) → World σ → World σ × Option GoError
  | [], w => (w, none)
  | m :: rest, w =>
    match call h s w (deleteArgs chain m.2) with
    | (w1, some _) => (w1, some (GoError.deleteFailed m.2 chain))
    | (w1, none) => deleteMatches h s chain rest w1

/-- Loop `for chain, _ := range s.chains` of `removeContainerRules`. The
listing is run directly through `exec.Command`, not through `call`. -/
def removeFromChains {σ : Type} (h : Host σ) (s : iptablesService) (compiled : Compiled) :
    List GoString → World σ → World σ × Option GoError
  | [], w => (w, none)
  | chain :: rest, w =>
    let r := h.exec w.fw s.IptablesPath (listArgs chain)
    let w1 : World σ := ⟨r.1, w.logged, w.ran ++ [listArgs chain], w.queries⟩
    if r.2.2 then (w1, some (GoError.listFailed chain r.2.1))
    else
      match deleteMatches h s chain (compiled r.2.1) w1 with
      | (w2, some e) => (w2, some e)
      | (w2, none) => removeFromChains h s compiled rest w2

/-- `func (s *iptablesService) removeContainerRules(id string) error`. -/
def removeContainerRules {σ : Type} (h : Host σ) (re : RegexpPackage) (s : iptablesService)
    (w : World σ) (id : GoString) : Run (World σ × Option GoError) :=
  if s.readOnly then Run.done (w, none)
  else
    match getShortId id with
    | Run.fault f => Run.fault f
    | Run.done shortId =>
      match mustCompileTag re shortId with
      | Run.fault f => Run.fault f
      | Run.done compiled => Run.done (removeFromChains h s compiled s.chains w)

/-! ### Rebuild -/

/-- First loop of `rebuildFirewall`: create each chain, flush it when the
creation fails, stop at the first chain for which both fail. -/
def ensureChains {σ : Type} (h : Host σ) (s : iptablesService) :
    List GoString → World σ → World σ × Option GoError
  | [], w => (w, none)
  | chain :: rest, w =>
    match call h s w ["-t".toList, "nat".toList, "-N".toList, chain] with
    | (w1, none) => ensureChains h s rest w1
    | (w1, some _) =>
      match call h s w1 ["-t".toList, "nat".toList, "-F".toList, chain] with
      | (w2, some _) => (w2, some (GoError.createChainFailed chain))
      | (w2, none) => ensureChains h s rest w2

/-- Second loop of `rebuildFirewall`: `for _, cont := range containers`. -/
def addAllContainers {σ : Type} (h : Host σ) (s : iptablesService) :
    containerMap → World σ → Run (World σ × Option GoError)
  | [], w => Run.done (w, none)
  | (_, cont) :: rest, w =>
    match addContainerRules h s w cont with
    | Run.fault f => Run.fault f
    | Run.done (w1, some e) => Run.done (w1, some e)
    | Run.done (w1, none) => addAllContainers h s rest w1

/-- `func (s *iptablesService) rebuildFirewall(containers containerMap) error`. -/
def rebuildFirewall {σ : Type} (h : Host σ) (s : iptablesService) (w : World σ)
    (containers : containerMap) : Run (World σ × Option GoError) :=
  match ensureChains h s s.chains w with
  | (w1, some e) => Run.done (w1, some e)
  | (w1, none) => addAllContainers h s containers w1

/-! ## Container registry (`src/docker.go`) -/

/-- `dockerclient.PortBinding`: host ip and host port, both text. -/
structure PortBinding where
  HostIp : GoString
  HostPort : GoString
  deriving DecidableEq, Repr

/-- The fields of `dockerclient.ContainerInfo` that `getContainer` reads:
`Id`, `Name`, `NetworkSettings.IPAddress` and `NetworkSettings.Ports`. -/
structure ContainerInfo where
  Id : GoString
  Name : GoString
  IPAddress : GoString
  Ports : List (GoString × List PortBinding)
  deriving DecidableEq, Repr

/-- The container runtime as the program sees it while it handles one event:
`InspectContainer(id)` (`none` when `err != nil`) and the ids returned by
`ListContainers(false, false, "")` (`none` when `err != nil`). -/
structure Runtime where
  InspectContainer : GoString → Option ContainerInfo
  ListContainers : Option (List GoString)

/-- Value of a run of decimal digits. -/
def digitsValue : GoString → Nat → Nat
  | [], acc => acc
  | c :: cs, acc => digitsValue cs (acc * 10 + (c.toNat - '0'.toNat))

/-- `port, _ := strconv.Atoi(text)` with 64-bit `int`: an optional sign and at
least one digit; 0 when the text is not of that form, the nearest `int` when the
number is out of range. -/
def atoi (text : GoString) : Int :=
  let neg := text.head? = some '-'
  let body := if text.head? = some '-' ∨ text.head? = some '+' then text.drop 1 else text
  if body = [] ∨ ¬ body.all Char.isDigit = true then 0
  else if neg then - (Int.ofNat (min (digitsValue body 0) (2 ^ 63)))
  else Int.ofNat (min (digitsValue body 0) (2 ^ 63 - 1))

/-- Inner loop of `getContainer`:
`cont.Ports[p] = append(cont.Ports[p], portBind{...})` for each binding. -/
def appendBinds (p : GoString) :
    List PortBinding → List (GoString × List portBind) → List (GoString × List portBind)
  | [], m => m
  | b :: rest, m =>
    appendBinds p rest (mapSet m p ((mapGet m p).getD [] ++ [⟨b.HostIp, atoi b.HostPort⟩]))

/-- Outer loop of `getContainer`: `for p, ports := range info.NetworkSettings.Ports`. -/
def collectPorts :
    List (GoString × List PortBinding) → List (GoString × List portBind) →
      List (GoString × List portBind)
  | [], m => m
  | (p, ports) :: rest, m => collectPorts rest (appendBinds p ports m)

/-- Lines 107-122 of `getContainer`: the conversion of an inspect response.
`info.Name[1:]` panics on the empty name. -/
def toContainer (info : ContainerInfo) : Run container :=
  if 1 ≤ info.Name.length then
    Run.done ⟨info.Id, info.IPAddress, info.Name.drop 1, collectPorts info.Ports []⟩
  else Run.fault Fault.sliceBounds

/-- `func (s *dockerService) getContainer(id string) (*container, error)`;
`none` stands for `nil, err`. -/
def getContainer {σ : Type} (rt : Runtime) (w : World σ) (id : GoString) :
    Run (World σ × Option container) :=
  let w1 : World σ := ⟨w.fw, w.logged, w.ran, w.queries ++ [Query.inspect id]⟩
  match rt.InspectContainer id with
  | none => Run.done (w1, none)
  | some info =>
    match toContainer info with
    | Run.fault f => Run.fault f
    | Run.done cont => Run.done (w1, some cont)

/-- Mutable part of `type dockerService struct`: the registry map, together
with the effects so far. The runtime client and the firewall service are
fixed and passed as parameters. -/
structure dockerService (σ : Type) where
  containers : containerMap
  world : World σ
  deriving DecidableEq, Repr

/-- Loop of `updateContainerList`: `for _, c := range containers`. -/
def loadContainers {σ : Type} (rt : Runtime) :
    List GoString → containerMap → World σ → Run (containerMap × World σ)
  | [], m, w => Run.done (m, w)
  | id :: rest, m, w =>
    match getContainer rt w id with
    | Run.fault f => Run.fault f
    | Run.done (w1, some cont) => loadContainers rt rest (mapSet m id cont) w1
    | Run.done (w1, none) => loadContainers rt rest m w1

/-- `func (s *dockerService) updateContainerList() error`. -/
def updateContainerList {σ : Type} (rt : Runtime) (h : Host σ) (s : iptablesService)
    (d : dockerService σ) : Run (dockerService σ × Option GoError) :=
  let w0 : World σ := ⟨d.world.fw, d.world.logged, d.world.ran, d.world.queries ++ [Query.list]⟩
  match rt.ListContainers with
  | none => Run.done (⟨d.containers, w0⟩, some GoError.runtimeListFailed)
  | some ids =>
    match loadContainers rt ids [] w0 with
    | Run.fault f => Run.fault f
    | Run.done (m, w1) =>
      match rebuildFirewall h s w1 m with
      | Run.fault f => Run.fault f
      | Run.done (w2, err) => Run.done (⟨m, w2⟩, err)

/-- Call `s.updateContainerList()` of a handler: the returned error is dropped. -/
def resync {σ : Type} (rt : Runtime) (h : Host σ) (s : iptablesService)
    (d : dockerService σ) : Run (dockerService σ) :=
  match updateContainerList rt h s d with
  | Run.fault f => Run.fault f
  | Run.done (d1, _) => Run.done d1

/-- `func (s *dockerService) startContainer(id string)`. -/
def startContainer {σ : Type} (rt : Runtime) (h : Host σ) (s : iptablesService)
    (d : dockerService σ) (id : GoString) : Run (dockerService σ) :=
  match mapGet d.containers id with
  | some _ => resync rt h s d
  | none =>
    match getContainer rt d.world id with
    | Run.fault f => Run.fault f
    | Run.done (w1, none) => Run.done ⟨d.containers, w1⟩
    | Run.done (w1, some cont) =>
      match addContainerRules h s w1 cont with
      | Run.fault f => Run.fault f
      | Run.done (w2, _) => Run.done ⟨mapSet d.containers id cont, w2⟩

/-- `func (s *dockerService) dieContainer(id string)`. -/
def dieContainer {σ : Type} (rt : Runtime) (h : Host σ) (re : RegexpPackage)
    (s : iptablesService) (d : dockerService σ) (id : GoString) : Run (dockerService σ) :=
  match mapGet d.containers id with
  | some _ =>
    match removeContainerRules h re s d.world id with
    | Run.fault f => Run.fault f
    | Run.done (w1, none) => Run.done ⟨mapDelete d.containers id, w1⟩
    | Run.done (w1, some _) => resync rt h s ⟨d.containers, w1⟩
  | none => resync rt h s d

/-- The fields of `dockerclient.Event` that `dockerEvent` reads. -/
structure Event where
  Id : GoString
  Status : GoString
  deriving DecidableEq, Repr

/-- `func (s *dockerService) dockerEvent(event *dockerclient.Event, ...)`. -/
def dockerEvent {σ : Type} (rt : Runtime) (h : Host σ) (re : RegexpPackage)
    (s : iptablesService) (d : dockerService σ) (event : Event) : Run (dockerService σ) :=
  if event.Status = "start".toList then startContainer rt h s d event.Id
  else if event.Status = "die".toList then dieContainer rt h re s d event.Id
  else Run.done d

/-! ## Reference definitions for the statements -/

/-- Run a list of commands through `call`, one after the other, dropping the
returned errors. -/
def callAll {σ : Type} (h : Host σ) (s : iptablesService) :
    List (List GoString) → World σ → World σ
  | [], w => w
  | args :: rest, w => callAll h s rest (call h s w args).1

/-- The rules declared under a container name: `s.Rules[name]`. -/
def rulesFor (s : iptablesService) (name : GoString) : List rule :=
  (mapGet s.Rules name).getD []

/-- The pairs the spec speaks of: a rule declared under the container's name
and a published binding (with its port key) whose host port equals the rule's
`HostPort`. -/
def matchingPairs (s : iptablesService) (cont : container) :
    List (rule × GoString × portBind) :=
  (rulesFor s cont.Name).flatMap fun r =>
    cont.Ports.flatMap fun kb =>
      (kb.2.filter fun b => decide (b.Port = r.HostPort)).map fun b => (r, kb.1, b)

/-- The insert command of one pair, for a port key of at least 4 characters and
an id of at least 12: NAT table, the rule's chain, destination the rule's host
ip or any, not from the bridge interface, protocol by the key's suffix, the
binding's host port, DNAT to address and container port, comment with name and
short id. -/
def pairCommand (s : iptablesService) (cont : container)
    (p : rule × GoString × portBind) : List GoString :=
  ["-t".toList, "nat".toList, "-A".toList, p.1.Chain, "-d".toList,
    (if p.1.HostIp = [] then "0.0.0.0/0".toList else p.1.HostIp), "!".toList,
    "-i".toList, s.DockerInterface,
    "-p".toList, (if hasSuffix p.2.1 "/udp".toList then "udp".toList else "tcp".toList),
    "-m".toList, (if hasSuffix p.2.1 "/udp".toList then "udp".toList else "tcp".toList),
    "--dport".toList, formatInt p.2.2.Port, "-j".toList, "DNAT".toList,
    "--to-destination".toList, cont.Ip ++ ":".toList ++ p.2.1.take (p.2.1.length - 4),
    "-m".toList, "comment".toList, "--comment".toList,
    "'Docker ".toList ++ cont.Name ++ "[".toList ++ cont.Id.take 12 ++ "]'".toList]

/-- The commands the spec expects `addRulesFor` to emit: one per matching pair. -/
def expectedCommands (s : iptablesService) (cont : container) : List (List GoString) :=
  (matchingPairs s cont).map (pairCommand s cont)

/-! ## Decimal numerals

What a text denotes as a number, read digit by digit; the statements use it to
say which number a formatted or parsed text stands for. -/

/-- The value of a decimal digit. -/
def digitValue (c : Char) : Option Nat :=
  if c = '0' then some 0 else if c = '1' then some 1 else if c = '2' then some 2
  else if c = '3' then some 3 else if c = '4' then some 4 else if c = '5' then some 5
  else if c = '6' then some 6 else if c = '7' then some 7 else if c = '8' then some 8
  else if c = '9' then some 9 else none

/-- The value of a run of decimal digits read from the left, `acc` being the
value of the digits already read. -/
def numeralFrom : GoString → Nat → Option Nat
  | [], acc => some acc
  | c :: cs, acc =>
    match digitValue c with
    | some d => numeralFrom cs (acc * 10 + d)
    | none => none

/-- The natural number a non-empty run of decimal digits denotes. -/
def numeralValue (text : GoString) : Option Nat :=
  if text = [] then none else numeralFrom text 0

/-- The integer a decimal numeral denotes: a run of digits, or `-` and a run of
digits. -/
def decimalValue (text : GoString) : Option Int :=
  match numeralValue text with
  | some v => some (Int.ofNat v)
  | none =>
    match text with
    | '-' :: digits => (numeralValue digits).map fun v => - Int.ofNat v
    | _ => none

/-! ## Concrete inputs -/

/-- A `regexp` package that rejects every pattern outside the embedded ones.
The statements consult it at one pattern only, the one built from twelve `(`,
which Go's package rejects (`missing closing )`); for an id of letters and
digits no package is consulted. -/
def rejectingRegexp : RegexpPackage := ⟨fun _ => none⟩

/-- An id that starts with twelve `(`. -/
def parenId : GoString := "((((((((((((0f3a9c1e".toList

/-- A firewall tool that accepts every command and prints nothing. -/
def quietHost : Host Unit := ⟨fun _ _ _ => ((), [], false)⟩

/-- A firewall tool for which every command fails. -/
def failingHost : Host Unit := ⟨fun _ _ _ => ((), [], true)⟩

/-- No effect so far. -/
def emptyWorld : World Unit := ⟨(), [], [], []⟩

/-- Id of the container of the spec's scenario. -/
def webId : GoString := "0f3a9c1e7b2d4a6c8e5f".toList

/-- The configuration of the spec's scenario: rule `web`/8080/`DOCKER`. -/
def webService : iptablesService :=
  ⟨"/sbin/iptables".toList, "docker0".toList,
    [("web".toList, [⟨[], 8080, "DOCKER".toList⟩])], ["DOCKER".toList], false⟩

/-- The same configuration in read-only mode. -/
def webServiceReadOnly : iptablesService :=
  ⟨"/sbin/iptables".toList, "docker0".toList,
    [("web".toList, [⟨[], 8080, "DOCKER".toList⟩])], ["DOCKER".toList], true⟩

/-- The container of the spec's scenario: binding `80/tcp` to `("", 8080)`,
address 10.0.0.5. -/
def webContainer : container :=
  ⟨webId, "10.0.0.5".toList, "web".toList, [("80/tcp".toList, [⟨[], 8080⟩])]⟩

/-- The insert command of the spec's scenario. -/
def webCommand : List GoString :=
  ["-t".toList, "nat".toList, "-A".toList, "DOCKER".toList, "-d".toList, "0.0.0.0/0".toList,
    "!".toList, "-i".toList, "docker0".toList, "-p".toList, "tcp".toList, "-m".toList,
    "tcp".toList, "--dport".toList, "8080".toList, "-j".toList, "DNAT".toList,
    "--to-destination".toList, "10.0.0.5:80".toList, "-m".toList, "comment".toList,
    "--comment".toList, "'Docker web[0f3a9c1e7b2d]'".toList]

/-- A container like `webContainer` whose port key `80` lacks the protocol
suffix (2 characters). -/
def shortKeyContainer : container :=
  ⟨webId, "10.0.0.5".toList, "web".toList, [("80".toList, [⟨[], 8080⟩])]⟩

/-- The preconditions under which building the commands of a container cannot
leave the bounds of a string: an id of at least 12 characters and port keys of
at least 4. -/
def sliceable (cont : container) : Prop :=
  12 ≤ cont.Id.length ∧ ∀ kb ∈ cont.Ports, 4 ≤ kb.1.length

/-- The create-chain commands of a rebuild, one per managed chain. -/
def newChainCommands (s : iptablesService) : List (List GoString) :=
  s.chains.map fun chain => ["-t".toList, "nat".toList, "-N".toList, chain]

/-! ## A firewall tool with one chain

The layout of the listing is the one of `iptables -t nat -L <chain> -n
--line-numbers`: a line naming the chain, a line of column titles, then one
line per rule that starts with the rule's number. -/

/-- A line number given as decimal digits. -/
def parseLineNumber (text : GoString) : Option Nat :=
  if text ≠ [] ∧ text.all Char.isDigit = true then some (digitsValue text 0) else none

/-- The rule lines of a listing, numbered from `n`; the number column is padded
to five characters. -/
def renderRules : Nat → List GoString → GoString
  | _, [] => []
  | n, r :: rest =>
    Nat.toDigits 10 n ++ List.replicate (5 - (Nat.toDigits 10 n).length) ' ' ++ r ++
      "\n".toList ++ renderRules (n + 1) rest

/-- The text printed for a chain holding `rules`. -/
def renderListing (chain : GoString) (rules : List GoString) : GoString :=
  "Chain ".toList ++ chain ++ " (1 references)\n".toList ++
    "num  target     prot opt source               destination\n".toList ++
    renderRules 1 rules

/-- A firewall tool whose NAT table holds one chain; the state is the list of
the chain's rules, each the text printed after its number. It lists the chain,
deletes a rule by number (the rules after it move up by one), and rejects every
other command. -/
def chainTool (chain : GoString) : Host (List GoString) :=
  ⟨fun rules _ args =>
    if args = listArgs chain then (rules, renderListing chain rules, false)
    else
      match args with
      | [t, table, d, c, line] =>
        if [t, table, d, c] = ["-t".toList, "nat".toList, "-D".toList, chain] then
          match parseLineNumber line with
          | some k =>
            if 1 ≤ k ∧ k ≤ rules.length then (rules.eraseIdx (k - 1), [], false)
            else (rules, [], true)
          | none => (rules, [], true)
        else (rules, [], true)
      | _ => (rules, [], true)⟩

/-- The rule the scenario's insert command leaves in chain `DOCKER`, as the
listing prints it after the line number. -/
def taggedRule : GoString :=
  "DNAT       tcp  --  0.0.0.0/0            0.0.0.0/0            tcp dpt:8080 /* 'Docker web[0f3a9c1e7b2d]' */ to:10.0.0.5:80".toList

/-- The listing of chain `DOCKER` holding `taggedRule` alone. -/
def taggedListing : GoString :=
  ("Chain DOCKER (1 references)\n" ++
    "num  target     prot opt source               destination\n" ++
    "1    DNAT       tcp  --  0.0.0.0/0            0.0.0.0/0            tcp dpt:8080 /* 'Docker web[0f3a9c1e7b2d]' */ to:10.0.0.5:80\n").toList

/-! ## Reference definitions for the registry -/

/-- A binding of the inspect response as stored: the host port is parsed. -/
def storedBind (b : PortBinding) : portBind := ⟨b.HostIp, atoi b.HostPort⟩

/-- The record stored for an inspect response: its id and address, its name
without the first character, and for each port key that has bindings the
bindings with the host port parsed. -/
def recordOf (info : ContainerInfo) : container :=
  ⟨info.Id, info.IPAddress, info.Name.drop 1, collectPorts info.Ports []⟩

/-- The map a resync builds from the listed ids, starting from `m`: each listed
id whose inspect succeeds is set to the record of its response. -/
def liveMap (rt : Runtime) : List GoString → containerMap → containerMap
  | [], m => m
  | id :: rest, m =>
    match rt.InspectContainer id with
    | some info => liveMap rt rest (mapSet m id (recordOf info))
    | none => liveMap rt rest m

/-! ## Concrete runtimes and registries -/

/-- The inspect response for the container of the scenario: the runtime
reports the name with a leading `/` and the host port as text. -/
def webInfo : ContainerInfo :=
  ⟨webId, "/web".toList, "10.0.0.5".toList, [("80/tcp".toList, [⟨[], "8080".toList⟩])]⟩

/-- A runtime in which the container of the scenario runs alone. -/
def webRuntime : Runtime :=
  ⟨fun id => if id = webId then some webInfo else none, some [webId]⟩

/-- A runtime in which no container runs. -/
def goneRuntime : Runtime := ⟨fun _ => none, some []⟩

/-- A runtime whose list query fails. -/
def downRuntime : Runtime := ⟨fun _ => none, none⟩

/-- A runtime that lists one container and reports it with an empty name. -/
def namelessRuntime : Runtime :=
  ⟨fun _ => some ⟨webId, [], "10.0.0.5".toList, []⟩, some [webId]⟩

/-- A registry that tracks nothing. -/
def emptyRegistry : dockerService Unit := ⟨[], emptyWorld⟩

/-- A registry that tracks the container of the scenario. -/
def trackedWeb : dockerService Unit := ⟨[(webId, webContainer)], emptyWorld⟩

/-- A runtime that reports the container of the scenario with the port key
`80`, without the protocol suffix. -/
def shortKeyRuntime : Runtime :=
  ⟨fun _ => some ⟨webId, "/web".toList, "10.0.0.5".toList,
    [("80".toList, [⟨[], "8080".toList⟩])]⟩, some [webId]⟩

/-- A runtime that reports the container of the scenario with the id `abc`. -/
def shortIdRuntime : Runtime :=
  ⟨fun _ => some ⟨"abc".toList, "/web".toList, "10.0.0.5".toList,
    [("80/tcp".toList, [⟨[], "8080".toList⟩])]⟩, some [webId]⟩

/-! ## Lemmas: maps -/

theorem mapGet_mapDelete_self {β : Type} (m : List (GoString × β)) (k : GoString) :
    mapGet (mapDelete m k) k = none := by
  induction m with
  | nil => rfl
  | cons e rest ih =>
    obtain ⟨k1, v1⟩ := e
    by_cases hk : k1 = k
    · simp [mapDelete, hk, ih]
    · simp [mapDelete, mapGet, hk, ih]

theorem mapGet_mapDelete_ne {β : Type} (m : List (GoString × β)) (k k2 : GoString)
    (hne : k2 ≠ k) : mapGet (mapDelete m k) k2 = mapGet m k2 := by
  induction m with
  | nil => rfl
  | cons e rest ih =>
    obtain ⟨k1, v1⟩ := e
    by_cases hk : k1 = k
    · have h2 : ¬ k1 = k2 := fun h => hne (h ▸ hk)
      rw [mapDelete, if_pos hk, mapGet, if_neg h2, ih]
    · rw [mapDelete, if_neg hk, mapGet, mapGet, ih]

theorem mapGet_mapSet_self {β : Type} (m : List (GoString × β)) (k : GoString) (v : β) :
    mapGet (mapSet m k v) k = some v := by
  induction m with
  | nil => simp [mapSet, mapGet]
  | cons e rest ih =>
    obtain ⟨k1, v1⟩ := e
    by_cases hk : k1 = k
    · simp [mapSet, mapGet, hk]
    · simp [mapSet, mapGet, hk, ih]

theorem mapGet_mapSet_ne {β : Type} (m : List (GoString × β)) (k k2 : GoString) (v : β)
    (hne : k2 ≠ k) : mapGet (mapSet m k v) k2 = mapGet m k2 := by
  induction m with
  | nil =>
    have h2 : ¬ k = k2 := fun h => hne h.symm
    simp only [mapSet, mapGet, if_neg h2]
  | cons e rest ih =>
    obtain ⟨k1, v1⟩ := e
    by_cases hk : k1 = k
    · have h2 : ¬ k = k2 := fun h => hne h.symm
      have h3 : ¬ k1 = k2 := fun h => h2 (hk ▸ h)
      rw [mapSet, if_pos hk, mapGet, if_neg h2, mapGet, if_neg h3,
        mapGet_mapDelete_ne rest k k2 hne]
    · rw [mapSet, if_neg hk, mapGet, mapGet, ih]

/-! ## Lemmas: `call` and sequences of calls -/

theorem call_logged {σ : Type} (h : Host σ) (s : iptablesService) (w : World σ)
    (args : List GoString) : (call h s w args).1.logged = w.logged ++ [args] := by
  simp only [call]
  split_ifs <;> rfl

theorem call_queries {σ : Type} (h : Host σ) (s : iptablesService) (w : World σ)
    (args : List GoString) : (call h s w args).1.queries = w.queries := by
  simp only [call]
  split_ifs <;> rfl

theorem call_readOnly {σ : Type} (h : Host σ) (s : iptablesService) (w : World σ)
    (args : List GoString) (hro : s.readOnly = true) :
    call h s w args = (⟨w.fw, w.logged ++ [args], w.ran, w.queries⟩, none) := by
  unfold call
  simp [hro]

theorem call_ran {σ : Type} (h : Host σ) (s : iptablesService) (w : World σ)
    (args : List GoString) (hro : s.readOnly = false) :
    (call h s w args).1.ran = w.ran ++ [args] := by
  simp only [call]
  split_ifs with h1 h2
  · rw [hro] at h1; cases h1
  · rfl
  · rfl

theorem callAll_append {σ : Type} (h : Host σ) (s : iptablesService)
    (a b : List (List GoString)) (w : World σ) :
    callAll h s (a ++ b) w = callAll h s b (callAll h s a w) := by
  induction a generalizing w with
  | nil => rfl
  | cons x rest ih =>
    show callAll h s (rest ++ b) (call h s w x).1 = callAll h s b (callAll h s rest (call h s w x).1)
    exact ih _

theorem callAll_logged {σ : Type} (h : Host σ) (s : iptablesService)
    (cmds : List (List GoString)) (w : World σ) :
    (callAll h s cmds w).logged = w.logged ++ cmds := by
  induction cmds generalizing w with
  | nil => simp [callAll]
  | cons x rest ih => simp [callAll, ih, call_logged]

theorem callAll_queries {σ : Type} (h : Host σ) (s : iptablesService)
    (cmds : List (List GoString)) (w : World σ) :
    (callAll h s cmds w).queries = w.queries := by
  induction cmds generalizing w with
  | nil => simp [callAll]
  | cons x rest ih => simp [callAll, ih, call_queries]

theorem callAll_ran {σ : Type} (h : Host σ) (s : iptablesService)
    (cmds : List (List GoString)) (w : World σ) (hro : s.readOnly = false) :
    (callAll h s cmds w).ran = w.ran ++ cmds := by
  induction cmds generalizing w with
  | nil => simp [callAll]
  | cons x rest ih => simp [callAll, ih, call_ran h s w x hro]

theorem callAll_readOnly {σ : Type} (h : Host σ) (s : iptablesService)
    (cmds : List (List GoString)) (w : World σ) (hro : s.readOnly = true) :
    callAll h s cmds w = ⟨w.fw, w.logged ++ cmds, w.ran, w.queries⟩ := by
  induction cmds generalizing w with
  | nil => simp [callAll]
  | cons x rest ih => simp [callAll, ih, call_readOnly h s w x hro]

/-! ## Lemmas: `addContainerRules` -/

theorem ruleCommand_eq (s : iptablesService) (cont : container) (r : rule)
    (key : GoString) (b : portBind) (hk : 4 ≤ key.length) (hid : 12 ≤ cont.Id.length) :
    ruleCommand s cont r key b = Run.done (pairCommand s cont (r, key, b)) := by
  simp [ruleCommand, dropProtocol, getShortId, pairCommand, hk, hid, List.length_eq_zero]

theorem ruleCommand_done (s : iptablesService) (cont : container) (r : rule)
    (key : GoString) (b : portBind) (args : List GoString)
    (hdone : ruleCommand s cont r key b = Run.done args) :
    args = pairCommand s cont (r, key, b) := by
  by_cases hk : 4 ≤ key.length
  · by_cases hid : 12 ≤ cont.Id.length
    · rw [ruleCommand_eq s cont r key b hk hid] at hdone
      injection hdone with h1
      exact h1.symm
    · simp [ruleCommand, dropProtocol, getShortId, hk, hid] at hdone
  · simp [ruleCommand, dropProtocol, hk] at hdone

theorem addBinds_done {σ : Type} (h : Host σ) (s : iptablesService) (cont : container)
    (r : rule) (key : GoString) (binds : List portBind) (w w1 : World σ)
    (hdone : addBinds h s cont r key binds w = Run.done w1) :
    w1 = callAll h s
      (((binds.filter fun b => decide (b.Port = r.HostPort)).map fun b => (r, key, b)).map
        (pairCommand s cont)) w := by
  induction binds generalizing w with
  | nil =>
    simp only [addBinds] at hdone
    injection hdone with h1
    simp [callAll, h1]
  | cons b rest ih =>
    by_cases hb : b.Port = r.HostPort
    · simp only [addBinds, hb, if_true] at hdone
      cases hc : ruleCommand s cont r key b with
      | fault f => rw [hc] at hdone; cases hdone
      | done args =>
        rw [hc] at hdone
        have ha := ruleCommand_done s cont r key b args hc
        have := ih _ hdone
        simp [List.filter_cons, hb, callAll, this, ha]
    · simp only [addBinds, hb, if_false] at hdone
      have := ih _ hdone
      simp [List.filter_cons, hb, this]

theorem addBinds_eq {σ : Type} (h : Host σ) (s : iptablesService) (cont : container)
    (r : rule) (key : GoString) (binds : List portBind) (w : World σ)
    (hk : 4 ≤ key.length) (hid : 12 ≤ cont.Id.length) :
    addBinds h s cont r key binds w = Run.done (callAll h s
      (((binds.filter fun b => decide (b.Port = r.HostPort)).map fun b => (r, key, b)).map
        (pairCommand s cont)) w) := by
  induction binds generalizing w with
  | nil => simp [addBinds, callAll]
  | cons b rest ih =>
    by_cases hb : b.Port = r.HostPort
    · simp only [addBinds, hb, if_true, ruleCommand_eq s cont r key b hk hid, ih]
      simp [List.filter_cons, hb, callAll]
    · simp only [addBinds, hb, if_false, ih]
      simp [List.filter_cons, hb]

theorem addPorts_done {σ : Type} (h : Host σ) (s : iptablesService) (cont : container)
    (r : rule) (ports : List (GoString × List portBind)) (w w1 : World σ)
    (hdone : addPorts h s cont r ports w = Run.done w1) :
    w1 = callAll h s
      ((ports.flatMap fun kb =>
        (kb.2.filter fun b => decide (b.Port = r.HostPort)).map fun b => (r, kb.1, b)).map
        (pairCommand s cont)) w := by
  induction ports generalizing w with
  | nil =>
    simp only [addPorts] at hdone
    injection hdone with h1
    simp [callAll, h1]
  | cons kb rest ih =>
    obtain ⟨key, binds⟩ := kb
    simp only [addPorts] at hdone
    cases hc : addBinds h s cont r key binds w with
    | fault f => rw [hc] at hdone; cases hdone
    | done w2 =>
      rw [hc] at hdone
      have h2 := addBinds_done h s cont r key binds w w2 hc
      have h3 := ih _ hdone
      rw [List.flatMap_cons, List.map_append, callAll_append, ← h2, h3]

theorem addPorts_eq {σ : Type} (h : Host σ) (s : iptablesService) (cont : container)
    (r : rule) (ports : List (GoString × List portBind)) (w : World σ)
    (hk : ∀ kb ∈ ports, 4 ≤ kb.1.length) (hid : 12 ≤ cont.Id.length) :
    addPorts h s cont r ports w = Run.done (callAll h s
      ((ports.flatMap fun kb =>
        (kb.2.filter fun b => decide (b.Port = r.HostPort)).map fun b => (r, kb.1, b)).map
        (pairCommand s cont)) w) := by
  induction ports generalizing w with
  | nil => simp [addPorts, callAll]
  | cons kb rest ih =>
    obtain ⟨key, binds⟩ := kb
    have hk1 : 4 ≤ key.length := hk (key, binds) (List.mem_cons_self _ _)
    have hk2 : ∀ kb ∈ rest, 4 ≤ kb.1.length := fun kb hm => hk kb (List.mem_cons_of_mem _ hm)
    simp only [addPorts, addBinds_eq h s cont r key binds w hk1 hid, ih _ hk2]
    rw [List.flatMap_cons, List.map_append, callAll_append]

theorem addRules_done {σ : Type} (h : Host σ) (s : iptablesService) (cont : container)
    (rules : List rule) (w w1 : World σ)
    (hdone : addRules h s cont rules w = Run.done w1) :
    w1 = callAll h s
      ((rules.flatMap fun r => cont.Ports.flatMap fun kb =>
        (kb.2.filter fun b => decide (b.Port = r.HostPort)).map fun b => (r, kb.1, b)).map
        (pairCommand s cont)) w := by
  induction rules generalizing w with
  | nil =>
    simp only [addRules] at hdone
    injection hdone with h1
    simp [callAll, h1]
  | cons r rest ih =>
    simp only [addRules] at hdone
    cases hc : addPorts h s cont r cont.Ports w with
    | fault f => rw [hc] at hdone; cases hdone
    | done w2 =>
      rw [hc] at hdone
      have h2 := addPorts_done h s cont r cont.Ports w w2 hc
      have h3 := ih _ hdone
      rw [List.flatMap_cons, List.map_append, callAll_append, ← h2, h3]

theorem addRules_eq {σ : Type} (h : Host σ) (s : iptablesService) (cont : container)
    (rules : List rule) (w : World σ)
    (hk : ∀ kb ∈ cont.Ports, 4 ≤ kb.1.length) (hid : 12 ≤ cont.Id.length) :
    addRules h s cont rules w = Run.done (callAll h s
      ((rules.flatMap fun r => cont.Ports.flatMap fun kb =>
        (kb.2.filter fun b => decide (b.Port = r.HostPort)).map fun b => (r, kb.1, b)).map
        (pairCommand s cont)) w) := by
  induction rules generalizing w with
  | nil => simp [addRules, callAll]
  | cons r rest ih =>
    simp only [addRules, addPorts_eq h s cont r cont.Ports w hk hid, ih]
    rw [List.flatMap_cons, List.map_append, callAll_append]

/-- Under the length preconditions `addContainerRules` returns `nil` after
running exactly the expected commands through `call`. -/
theorem addContainerRules_eq {σ : Type} (h : Host σ) (s : iptablesService) (w : World σ)
    (cont : container) (hk : ∀ kb ∈ cont.Ports, 4 ≤ kb.1.length)
    (hid : 12 ≤ cont.Id.length) :
    addContainerRules h s w cont = Run.done (callAll h s (expectedCommands s cont) w, none) := by
  simp only [addContainerRules]
  have := addRules_eq h s cont ((mapGet s.Rules cont.Name).getD []) w hk hid
  rw [this]
  rfl

/-- Whenever `addContainerRules` returns, it returned `nil` after running
exactly the expected commands through `call`. -/
theorem addContainerRules_done {σ : Type} (h : Host σ) (s : iptablesService) (w : World σ)
    (cont : container) (res : World σ × Option GoError)
    (hdone : addContainerRules h s w cont = Run.done res) :
    res = (callAll h s (expectedCommands s cont) w, none) := by
  simp only [addContainerRules] at hdone
  cases hc : addRules h s cont ((mapGet s.Rules cont.Name).getD []) w with
  | fault f => rw [hc] at hdone; cases hdone
  | done w2 =>
    rw [hc] at hdone
    have h2 := addRules_done h s cont _ w w2 hc
    injection hdone with h1
    rw [← h1, h2]
    rfl

/-! ## Lemmas: rebuild -/

theorem addAllContainers_eq {σ : Type} (h : Host σ) (s : iptablesService)
    (containers : containerMap) (w : World σ)
    (hwf : ∀ kc ∈ containers, sliceable kc.2) :
    addAllContainers h s containers w = Run.done
      (callAll h s (containers.flatMap fun kc => expectedCommands s kc.2) w, none) := by
  induction containers generalizing w with
  | nil => rfl
  | cons kc rest ih =>
    obtain ⟨k, c⟩ := kc
    have hc : sliceable c := hwf (k, c) (List.mem_cons_self _ _)
    have hrest : ∀ kc ∈ rest, sliceable kc.2 := fun kc hm => hwf kc (List.mem_cons_of_mem _ hm)
    simp only [addAllContainers, addContainerRules_eq h s w c hc.2 hc.1, ih _ hrest]
    rw [List.flatMap_cons, callAll_append]

theorem ensureChains_readOnly {σ : Type} (h : Host σ) (s : iptablesService)
    (chains : List GoString) (w : World σ) (hro : s.readOnly = true) :
    ensureChains h s chains w =
      (callAll h s (chains.map fun chain => ["-t".toList, "nat".toList, "-N".toList, chain]) w,
        none) := by
  induction chains generalizing w with
  | nil => rfl
  | cons c rest ih =>
    simp only [ensureChains, call_readOnly h s w _ hro, ih, List.map_cons, callAll]

theorem ensureChains_queries {σ : Type} (h : Host σ) (s : iptablesService)
    (chains : List GoString) (w : World σ) :
    (ensureChains h s chains w).1.queries = w.queries := by
  induction chains generalizing w with
  | nil => rfl
  | cons c rest ih =>
    simp only [ensureChains]
    split
    · rename_i w1 hc
      rw [ih]
      have := call_queries h s w ["-t".toList, "nat".toList, "-N".toList, c]
      rw [hc] at this
      exact this
    · rename_i w1 e1 hc
      have h1 := call_queries h s w ["-t".toList, "nat".toList, "-N".toList, c]
      rw [hc] at h1
      split
      · rename_i w2 e2 hc2
        have h2 := call_queries h s w1 ["-t".toList, "nat".toList, "-F".toList, c]
        rw [hc2] at h2
        exact h2.trans h1
      · rename_i w2 hc2
        have h2 := call_queries h s w1 ["-t".toList, "nat".toList, "-F".toList, c]
        rw [hc2] at h2
        rw [ih]
        exact h2.trans h1

/-- A rebuild over containers whose commands can be built returns. -/
theorem rebuildFirewall_returns {σ : Type} (h : Host σ) (s : iptablesService)
    (containers : containerMap) (w : World σ)
    (hwf : ∀ kc ∈ containers, sliceable kc.2) :
    ∃ w1 e, rebuildFirewall h s w containers = Run.done (w1, e) ∧ w1.queries = w.queries := by
  simp only [rebuildFirewall]
  have hq := ensureChains_queries h s s.chains w
  split
  · rename_i w1 e hc
    rw [hc] at hq
    exact ⟨w1, some e, rfl, hq⟩
  · rename_i w1 hc
    rw [hc] at hq
    rw [addAllContainers_eq h s containers w1 hwf]
    exact ⟨_, none, rfl, by rw [callAll_queries]; exact hq⟩

theorem rebuildFirewall_readOnly {σ : Type} (h : Host σ) (s : iptablesService)
    (containers : containerMap) (w : World σ) (hro : s.readOnly = true)
    (hwf : ∀ kc ∈ containers, sliceable kc.2) :
    rebuildFirewall h s w containers = Run.done
      (⟨w.fw, w.logged ++ (newChainCommands s ++
          containers.flatMap fun kc => expectedCommands s kc.2), w.ran, w.queries⟩, none) := by
  simp only [rebuildFirewall, ensureChains_readOnly h s s.chains w hro,
    addAllContainers_eq h s containers _ hwf, callAll_readOnly h s _ _ hro, newChainCommands,
    List.append_assoc]

/-! ## Lemmas: the tag pattern -/

theorem matchAt_later (shortId : GoString) (offset : Nat) (rest : GoString)
    (hpos : 0 < offset) : matchAt shortId offset rest = none := by
  have : offset ≠ 0 := by omega
  simp [matchAt, this]

theorem findAllFrom_later (shortId : GoString) (offset skip : Nat) (text : GoString)
    (hpos : 0 < offset) : findAllFrom shortId offset skip text = [] := by
  induction text generalizing offset skip with
  | nil => cases skip <;> rfl
  | cons c cs ih =>
    cases skip with
    | zero =>
      simp only [findAllFrom, matchAt_later shortId offset (c :: cs) hpos]
      exact ih (offset + 1) 0 (by omega)
    | succ k =>
      simp only [findAllFrom]
      exact ih (offset + 1) k (by omega)

/-- The pattern is anchored at the beginning of the text, so a text yields at
most one match. -/
theorem findAllStringSubmatch_length_le_one (shortId text : GoString) :
    (findAllStringSubmatch shortId text).length ≤ 1 := by
  cases text with
  | nil => simp [findAllStringSubmatch, findAllFrom]
  | cons c cs =>
    simp only [findAllStringSubmatch, findAllFrom]
    split
    · simp [findAllFrom_later shortId 1 _ cs (by omega)]
    · simp [findAllFrom_later shortId 1 _ cs (by omega)]

/-- A text that does not begin with a digit yields no match. -/
theorem findAllStringSubmatch_no_leading_digit (shortId : GoString) (c : Char)
    (cs : GoString) (hc : c.isDigit = false) :
    findAllStringSubmatch shortId (c :: cs) = [] := by
  have hm : matchAt shortId 0 (c :: cs) = none := by
    simp [matchAt, List.takeWhile, hc]
  simp only [findAllStringSubmatch, findAllFrom, hm]
  exact findAllFrom_later shortId 1 0 cs (by omega)

/-! ## Lemmas: keys of maps -/

theorem mem_mapDelete {β : Type} (m : List (GoString × β)) (k : GoString) (x : GoString × β)
    (hx : x ∈ mapDelete m k) : x ∈ m ∧ x.1 ≠ k := by
  induction m with
  | nil => simp [mapDelete] at hx
  | cons e rest ih =>
    obtain ⟨k1, v1⟩ := e
    by_cases hk : k1 = k
    · rw [mapDelete, if_pos hk] at hx
      exact ⟨List.mem_cons_of_mem _ (ih hx).1, (ih hx).2⟩
    · rw [mapDelete, if_neg hk] at hx
      rcases List.mem_cons.mp hx with h1 | h1
      · subst h1
        exact ⟨List.mem_cons_self _ _, hk⟩
      · exact ⟨List.mem_cons_of_mem _ (ih h1).1, (ih h1).2⟩

theorem mem_mapSet {β : Type} (m : List (GoString × β)) (k : GoString) (v : β)
    (x : GoString × β) (hx : x ∈ mapSet m k v) : x = (k, v) ∨ (x ∈ m ∧ x.1 ≠ k) := by
  induction m with
  | nil =>
    simp only [mapSet, List.mem_singleton] at hx
    exact Or.inl hx
  | cons e rest ih =>
    obtain ⟨k1, v1⟩ := e
    by_cases hk : k1 = k
    · rw [mapSet, if_pos hk] at hx
      rcases List.mem_cons.mp hx with h1 | h1
      · exact Or.inl h1
      · have := mem_mapDelete rest k x h1
        exact Or.inr ⟨List.mem_cons_of_mem _ this.1, this.2⟩
    · rw [mapSet, if_neg hk] at hx
      rcases List.mem_cons.mp hx with h1 | h1
      · subst h1
        exact Or.inr ⟨List.mem_cons_self _ _, hk⟩
      · rcases ih h1 with h2 | h2
        · exact Or.inl h2
        · exact Or.inr ⟨List.mem_cons_of_mem _ h2.1, h2.2⟩

theorem nodup_keys_mapDelete {β : Type} (m : List (GoString × β)) (k : GoString)
    (hm : (m.map Prod.fst).Nodup) : ((mapDelete m k).map Prod.fst).Nodup := by
  induction m with
  | nil => simp [mapDelete]
  | cons e rest ih =>
    obtain ⟨k1, v1⟩ := e
    rw [List.map_cons, List.nodup_cons] at hm
    by_cases hk : k1 = k
    · rw [mapDelete, if_pos hk]
      exact ih hm.2
    · rw [mapDelete, if_neg hk, List.map_cons, List.nodup_cons]
      refine ⟨?_, ih hm.2⟩
      intro hin
      obtain ⟨x, hx, hx1⟩ := List.mem_map.mp hin
      exact hm.1 (List.mem_map.mpr ⟨x, (mem_mapDelete rest k x hx).1, hx1⟩)

theorem nodup_keys_mapSet {β : Type} (m : List (GoString × β)) (k : GoString) (v : β)
    (hm : (m.map Prod.fst).Nodup) : ((mapSet m k v).map Prod.fst).Nodup := by
  induction m with
  | nil => simp [mapSet]
  | cons e rest ih =>
    obtain ⟨k1, v1⟩ := e
    rw [List.map_cons, List.nodup_cons] at hm
    by_cases hk : k1 = k
    · rw [mapSet, if_pos hk, List.map_cons, List.nodup_cons]
      refine ⟨?_, nodup_keys_mapDelete rest k hm.2⟩
      intro hin
      obtain ⟨x, hx, hx1⟩ := List.mem_map.mp hin
      exact (mem_mapDelete rest k x hx).2 hx1
    · rw [mapSet, if_neg hk, List.map_cons, List.nodup_cons]
      refine ⟨?_, ih hm.2⟩
      intro hin
      obtain ⟨x, hx, hx1⟩ := List.mem_map.mp hin
      rcases mem_mapSet rest k v x hx with h1 | h1
      · rw [h1] at hx1
        exact hk hx1.symm
      · exact hm.1 (List.mem_map.mpr ⟨x, h1.1, hx1⟩)

theorem mapGet_eq_none_of_not_mem {β : Type} (m : List (GoString × β)) (k : GoString)
    (hk : k ∉ m.map Prod.fst) : mapGet m k = none := by
  induction m with
  | nil => rfl
  | cons e rest ih =>
    obtain ⟨k1, v1⟩ := e
    rw [List.map_cons, List.mem_cons, not_or] at hk
    have h1 : ¬ k1 = k := fun h => hk.1 h.symm
    rw [mapGet, if_neg h1]
    exact ih hk.2

theorem not_mem_of_mapGet_eq_none {β : Type} (m : List (GoString × β)) (k : GoString)
    (hk : mapGet m k = none) : k ∉ m.map Prod.fst := by
  induction m with
  | nil => simp
  | cons e rest ih =>
    obtain ⟨k1, v1⟩ := e
    by_cases h1 : k1 = k
    · rw [mapGet, if_pos h1] at hk
      cases hk
    · rw [mapGet, if_neg h1] at hk
      rw [List.map_cons, List.mem_cons, not_or]
      exact ⟨fun h => h1 h.symm, ih hk⟩

/-! ## Lemmas: the conversion of an inspect response -/

theorem appendBinds_keys (p : GoString) (bs : List PortBinding)
    (m : List (GoString × List portBind)) (x : GoString × List portBind)
    (hx : x ∈ appendBinds p bs m) : x.1 = p ∨ x ∈ m := by
  induction bs generalizing m with
  | nil => exact Or.inr hx
  | cons b rest ih =>
    rw [appendBinds] at hx
    rcases ih _ hx with h1 | h1
    · exact Or.inl h1
    · rcases mem_mapSet m p _ x h1 with h2 | h2
      · exact Or.inl (by rw [h2])
      · exact Or.inr h2.1

theorem collectPorts_keys (ps : List (GoString × List PortBinding))
    (m : List (GoString × List portBind)) (x : GoString × List portBind)
    (hx : x ∈ collectPorts ps m) : x.1 ∈ ps.map Prod.fst ∨ x ∈ m := by
  induction ps generalizing m with
  | nil => exact Or.inr hx
  | cons e rest ih =>
    obtain ⟨p, bs⟩ := e
    rw [collectPorts] at hx
    rcases ih _ hx with h1 | h1
    · exact Or.inl (List.mem_cons_of_mem _ h1)
    · rcases appendBinds_keys p bs m x h1 with h2 | h2
      · exact Or.inl (by rw [h2]; exact List.mem_cons_self _ _)
      · exact Or.inr h2

/-- The record of a well-formed inspect response can be turned into commands. -/
theorem sliceable_recordOf (info : ContainerInfo) (hid : 12 ≤ info.Id.length)
    (hkeys : ∀ kb ∈ info.Ports, 4 ≤ kb.1.length) : sliceable (recordOf info) := by
  refine ⟨hid, ?_⟩
  intro kb hkb
  rcases collectPorts_keys info.Ports [] kb hkb with h1 | h1
  · obtain ⟨y, hy, hy1⟩ := List.mem_map.mp h1
    rw [← hy1]
    exact hkeys y hy
  · cases h1

theorem toContainer_eq (info : ContainerInfo) (hname : info.Name ≠ []) :
    toContainer info = Run.done (recordOf info) := by
  have hlen : 1 ≤ info.Name.length := by
    cases hn : info.Name with
    | nil => exact absurd hn hname
    | cons c cs => simp
  simp only [toContainer, hlen, if_true]
  rfl

theorem getContainer_eq {σ : Type} (rt : Runtime) (w : World σ) (id : GoString)
    (hname : ∀ info, rt.InspectContainer id = some info → info.Name ≠ []) :
    getContainer rt w id = Run.done
      (⟨w.fw, w.logged, w.ran, w.queries ++ [Query.inspect id]⟩,
        (rt.InspectContainer id).map recordOf) := by
  simp only [getContainer]
  cases hi : rt.InspectContainer id with
  | none => rfl
  | some info =>
    simp only [toContainer_eq info (hname info hi)]
    rfl

/-! ## Lemmas: resync -/

theorem loadContainers_eq {σ : Type} (rt : Runtime) (ids : List GoString) (m : containerMap)
    (w : World σ)
    (hname : ∀ i ∈ ids, ∀ info, rt.InspectContainer i = some info → info.Name ≠ []) :
    loadContainers rt ids m w = Run.done
      (liveMap rt ids m, ⟨w.fw, w.logged, w.ran, w.queries ++ ids.map Query.inspect⟩) := by
  induction ids generalizing m w with
  | nil => simp [loadContainers, liveMap]
  | cons i rest ih =>
    have h1 := getContainer_eq rt w i (hname i (List.mem_cons_self _ _))
    have h2 : ∀ j ∈ rest, ∀ info, rt.InspectContainer j = some info → info.Name ≠ [] :=
      fun j hj => hname j (List.mem_cons_of_mem _ hj)
    simp only [loadContainers, h1, liveMap]
    cases hi : rt.InspectContainer i with
    | none => simp [ih _ _ h2]
    | some info => simp [ih _ _ h2]

theorem liveMap_get_other (rt : Runtime) (ids : List GoString) (m : containerMap)
    (k : GoString) (hk : k ∉ ids ∨ rt.InspectContainer k = none) :
    mapGet (liveMap rt ids m) k = mapGet m k := by
  induction ids generalizing m with
  | nil => rfl
  | cons i rest ih =>
    have hrest : k ∉ rest ∨ rt.InspectContainer k = none := by
      rcases hk with h1 | h1
      · exact Or.inl (fun h => h1 (List.mem_cons_of_mem _ h))
      · exact Or.inr h1
    simp only [liveMap]
    cases hi : rt.InspectContainer i with
    | none => exact ih m hrest
    | some info =>
      have hne : k ≠ i := by
        rcases hk with h1 | h1
        · exact fun h => h1 (h ▸ List.mem_cons_self _ _)
        · intro h
          rw [h, hi] at h1
          cases h1
      simp only []
      rw [ih _ hrest, mapGet_mapSet_ne m i k _ hne]

theorem liveMap_get_listed (rt : Runtime) (ids : List GoString) (m : containerMap)
    (k : GoString) (info : ContainerInfo) (hk : k ∈ ids)
    (hinfo : rt.InspectContainer k = some info) :
    mapGet (liveMap rt ids m) k = some (recordOf info) := by
  induction ids generalizing m with
  | nil => cases hk
  | cons i rest ih =>
    by_cases hrest : k ∈ rest
    · simp only [liveMap]
      cases hi : rt.InspectContainer i with
      | none => exact ih m hrest
      | some info2 => exact ih _ hrest
    · have hki : k = i := by
        rcases List.mem_cons.mp hk with h1 | h1
        · exact h1
        · exact absurd h1 hrest
      subst hki
      simp only [liveMap, hinfo]
      rw [liveMap_get_other rt rest _ k (Or.inl hrest), mapGet_mapSet_self]

/-- The map a resync builds from the empty map holds, for each key, the record
of the inspect response when the key is listed and its inspect succeeds, and
nothing otherwise. -/
theorem liveMap_get (rt : Runtime) (ids : List GoString) (k : GoString) :
    mapGet (liveMap rt ids []) k =
      if k ∈ ids then (rt.InspectContainer k).map recordOf else none := by
  by_cases hk : k ∈ ids
  · rw [if_pos hk]
    cases hi : rt.InspectContainer k with
    | none => rw [liveMap_get_other rt ids [] k (Or.inr hi)]; rfl
    | some info => rw [liveMap_get_listed rt ids [] k info hk hi]; rfl
  · rw [if_neg hk, liveMap_get_other rt ids [] k (Or.inl hk)]
    rfl

theorem liveMap_nodup (rt : Runtime) (ids : List GoString) (m : containerMap)
    (hm : (m.map Prod.fst).Nodup) : ((liveMap rt ids m).map Prod.fst).Nodup := by
  induction ids generalizing m with
  | nil => exact hm
  | cons i rest ih =>
    simp only [liveMap]
    cases hi : rt.InspectContainer i with
    | none => exact ih m hm
    | some info => exact ih _ (nodup_keys_mapSet m i _ hm)

theorem liveMap_mem (rt : Runtime) (ids : List GoString) (m : containerMap)
    (x : GoString × container) (hx : x ∈ liveMap rt ids m) :
    x ∈ m ∨ ∃ i ∈ ids, ∃ info, rt.InspectContainer i = some info ∧ x.2 = recordOf info := by
  induction ids generalizing m with
  | nil => exact Or.inl hx
  | cons i rest ih =>
    simp only [liveMap] at hx
    cases hi : rt.InspectContainer i with
    | none =>
      rw [hi] at hx
      rcases ih m hx with h1 | ⟨j, hj, info, h2, h3⟩
      · exact Or.inl h1
      · exact Or.inr ⟨j, List.mem_cons_of_mem _ hj, info, h2, h3⟩
    | some info =>
      rw [hi] at hx
      rcases ih _ hx with h1 | ⟨j, hj, info2, h2, h3⟩
      · rcases mem_mapSet m i _ x h1 with h4 | h4
        · exact Or.inr ⟨i, List.mem_cons_self _ _, info, hi, by rw [h4]⟩
        · exact Or.inl h4.1
      · exact Or.inr ⟨j, List.mem_cons_of_mem _ hj, info2, h2, h3⟩

/-- A resync whose list query succeeds with well-formed inspect responses
returns: the map is the live map, the world is that of the rebuild run against
the live map after the list query and one inspect query per listed id. -/
theorem updateContainerList_eq {σ : Type} (rt : Runtime) (h : Host σ) (s : iptablesService)
    (d : dockerService σ) (ids : List GoString)
    (hlist : rt.ListContainers = some ids)
    (hwf : ∀ i ∈ ids, ∀ info, rt.InspectContainer i = some info →
      info.Name ≠ [] ∧ 12 ≤ info.Id.length ∧ ∀ kb ∈ info.Ports, 4 ≤ kb.1.length) :
    ∃ (w2 : World σ) (err : Option GoError),
      updateContainerList rt h s d = Run.done (⟨liveMap rt ids [], w2⟩, err) ∧
      rebuildFirewall h s
        ⟨d.world.fw, d.world.logged, d.world.ran,
          d.world.queries ++ [Query.list] ++ ids.map Query.inspect⟩
        (liveMap rt ids []) = Run.done (w2, err) ∧
      w2.queries = d.world.queries ++ [Query.list] ++ ids.map Query.inspect := by
  have hname : ∀ i ∈ ids, ∀ info, rt.InspectContainer i = some info → info.Name ≠ [] :=
    fun i hi info hinfo => (hwf i hi info hinfo).1
  have hsl : ∀ kc ∈ liveMap rt ids [], sliceable kc.2 := by
    intro kc hkc
    rcases liveMap_mem rt ids [] kc hkc with h1 | ⟨i, hi, info, h2, h3⟩
    · cases h1
    · rw [h3]
      exact sliceable_recordOf info (hwf i hi info h2).2.1 (hwf i hi info h2).2.2
  obtain ⟨w2, err, hre, hq⟩ := rebuildFirewall_returns h s (liveMap rt ids [])
    ⟨d.world.fw, d.world.logged, d.world.ran,
      d.world.queries ++ [Query.list] ++ ids.map Query.inspect⟩ hsl
  refine ⟨w2, err, ?_, hre, hq⟩
  simp only [updateContainerList, hlist, loadContainers_eq rt ids [] _ hname, hre]

theorem updateContainerList_list_failed {σ : Type} (rt : Runtime) (h : Host σ)
    (s : iptablesService) (d : dockerService σ) (hlist : rt.ListContainers = none) :
    updateContainerList rt h s d = Run.done
      (⟨d.containers, ⟨d.world.fw, d.world.logged, d.world.ran,
        d.world.queries ++ [Query.list]⟩⟩, some GoError.runtimeListFailed) := by
  simp only [updateContainerList, hlist]

/-! ## Lemmas: the stored port bindings -/

theorem mapSet_absent {β : Type} (m : List (GoString × β)) (k : GoString) (v : β)
    (hk : mapGet m k = none) : mapSet m k v = m ++ [(k, v)] := by
  induction m with
  | nil => rfl
  | cons e rest ih =>
    obtain ⟨k1, v1⟩ := e
    by_cases h1 : k1 = k
    · rw [mapGet, if_pos h1] at hk
      cases hk
    · rw [mapGet, if_neg h1] at hk
      rw [mapSet, if_neg h1, ih hk]
      rfl

theorem mapGet_append_last {β : Type} (m : List (GoString × β)) (k : GoString) (v : β)
    (hk : mapGet m k = none) : mapGet (m ++ [(k, v)]) k = some v := by
  induction m with
  | nil => simp [mapGet]
  | cons e rest ih =>
    obtain ⟨k1, v1⟩ := e
    by_cases h1 : k1 = k
    · rw [mapGet, if_pos h1] at hk
      cases hk
    · rw [mapGet, if_neg h1] at hk
      rw [List.cons_append, mapGet, if_neg h1]
      exact ih hk

theorem mapGet_append_ne {β : Type} (m : List (GoString × β)) (k q : GoString) (v : β)
    (hq : q ≠ k) : mapGet (m ++ [(k, v)]) q = mapGet m q := by
  induction m with
  | nil =>
    have h1 : ¬ k = q := fun h => hq h.symm
    simp only [List.nil_append, mapGet, if_neg h1]
  | cons e rest ih =>
    obtain ⟨k1, v1⟩ := e
    by_cases h1 : k1 = q
    · rw [List.cons_append, mapGet, if_pos h1, mapGet, if_pos h1]
    · rw [List.cons_append, mapGet, if_neg h1, mapGet, if_neg h1]
      exact ih

theorem mapSet_last {β : Type} (m : List (GoString × β)) (k : GoString) (v v2 : β)
    (hk : mapGet m k = none) : mapSet (m ++ [(k, v)]) k v2 = m ++ [(k, v2)] := by
  induction m with
  | nil => simp [mapSet, mapDelete]
  | cons e rest ih =>
    obtain ⟨k1, v1⟩ := e
    by_cases h1 : k1 = k
    · rw [mapGet, if_pos h1] at hk
      cases hk
    · rw [mapGet, if_neg h1] at hk
      rw [List.cons_append, mapSet, if_neg h1, ih hk]
      rfl

theorem appendBinds_last (p : GoString) (bs : List PortBinding)
    (m : List (GoString × List portBind)) (acc : List portBind)
    (hp : mapGet m p = none) :
    appendBinds p bs (m ++ [(p, acc)]) = m ++ [(p, acc ++ bs.map storedBind)] := by
  induction bs generalizing acc with
  | nil => simp [appendBinds]
  | cons b rest ih =>
    rw [appendBinds, mapGet_append_last m p acc hp, Option.getD_some, mapSet_last m p _ _ hp,
      ih, List.map_cons, List.append_assoc]
    rfl

theorem appendBinds_absent (p : GoString) (bs : List PortBinding)
    (m : List (GoString × List portBind)) (hp : mapGet m p = none) :
    appendBinds p bs m = if bs = [] then m else m ++ [(p, bs.map storedBind)] := by
  cases bs with
  | nil => rfl
  | cons b rest =>
    rw [appendBinds, hp, Option.getD_none, mapSet_absent m p _ hp, appendBinds_last p rest m _ hp]
    simp [storedBind]

/-- For an inspect response whose port keys are distinct, the stored bindings
are those of the response, key by key and in order, with the host port parsed;
a key without bindings is not stored. -/
theorem collectPorts_distinct (ps : List (GoString × List PortBinding))
    (m : List (GoString × List portBind))
    (hnd : (ps.map Prod.fst).Nodup) (hdis : ∀ kb ∈ ps, mapGet m kb.1 = none) :
    collectPorts ps m = m ++
      (ps.filter fun kb => decide (kb.2 ≠ [])).map fun kb => (kb.1, kb.2.map storedBind) := by
  induction ps generalizing m with
  | nil => simp [collectPorts]
  | cons e rest ih =>
    obtain ⟨p, bs⟩ := e
    rw [List.map_cons, List.nodup_cons] at hnd
    have hp : mapGet m p = none := hdis (p, bs) (List.mem_cons_self _ _)
    rw [collectPorts, appendBinds_absent p bs m hp]
    by_cases hbs : bs = []
    · rw [if_pos hbs, ih m hnd.2 (fun kb hkb => hdis kb (List.mem_cons_of_mem _ hkb))]
      simp [List.filter_cons, hbs]
    · rw [if_neg hbs, ih _ hnd.2]
      · simp [List.filter_cons, hbs]
      · intro kb hkb
        have hne : kb.1 ≠ p := by
          intro h
          exact hnd.1 (List.mem_map.mpr ⟨kb, hkb, h⟩)
        rw [mapGet_append_ne m p kb.1 _ hne]
        exact hdis kb (List.mem_cons_of_mem _ hkb)

/-! ## Lemmas: removal -/

theorem deleteMatches_effects {σ : Type} (h : Host σ) (s : iptablesService)
    (chain : GoString) (ms : List (GoString × GoString)) (w : World σ) :
    (deleteMatches h s chain ms w).1.queries = w.queries ∧
    ∃ dels : List (List GoString),
      (deleteMatches h s chain ms w).1.logged = w.logged ++ dels ∧
      ∀ a ∈ dels, ∃ line, a = deleteArgs chain line := by
  induction ms generalizing w with
  | nil => exact ⟨rfl, [], by simp [deleteMatches], by simp⟩
  | cons m rest ih =>
    have hq := call_queries h s w (deleteArgs chain m.2)
    have hl := call_logged h s w (deleteArgs chain m.2)
    simp only [deleteMatches]
    split
    · rename_i w1 e hc
      rw [hc] at hq hl
      exact ⟨hq, [deleteArgs chain m.2], hl, by simp⟩
    · rename_i w1 hc
      rw [hc] at hq hl
      obtain ⟨h1, dels, h2, h3⟩ := ih w1
      refine ⟨h1.trans hq, deleteArgs chain m.2 :: dels, ?_, ?_⟩
      · rw [h2]
        show w1.logged ++ dels = w.logged ++ deleteArgs chain m.2 :: dels
        have hl2 : w1.logged = w.logged ++ [deleteArgs chain m.2] := hl
        rw [hl2, List.append_assoc]
        rfl
      · intro a ha
        rcases List.mem_cons.mp ha with h4 | h4
        · exact ⟨m.2, h4⟩
        · exact h3 a h4

theorem removeFromChains_effects {σ : Type} (h : Host σ) (s : iptablesService)
    (compiled : Compiled) (chains : List GoString) (w : World σ) :
    (removeFromChains h s compiled chains w).1.queries = w.queries ∧
    ∃ dels : List (List GoString),
      (removeFromChains h s compiled chains w).1.logged = w.logged ++ dels ∧
      ∀ a ∈ dels, ∃ chain line, a = deleteArgs chain line := by
  induction chains generalizing w with
  | nil => exact ⟨rfl, [], by simp [removeFromChains], by simp⟩
  | cons c rest ih =>
    simp only [removeFromChains]
    split_ifs with hfail
    · exact ⟨rfl, [], by simp, by simp⟩
    · obtain ⟨hq, dels, hl, hd⟩ := deleteMatches_effects h s c
        (compiled (h.exec w.fw s.IptablesPath (listArgs c)).2.1)
        ⟨(h.exec w.fw s.IptablesPath (listArgs c)).1, w.logged, w.ran ++ [listArgs c],
          w.queries⟩
      split
      · rename_i w2 e hc
        rw [hc] at hq hl
        exact ⟨hq, dels, hl, fun a ha => ⟨c, hd a ha⟩⟩
      · rename_i w2 hc
        rw [hc] at hq hl
        obtain ⟨hq2, dels2, hl2, hd2⟩ := ih w2
        refine ⟨hq2.trans hq, dels ++ dels2, ?_, ?_⟩
        · rw [hl2]
          have hl3 : w2.logged = w.logged ++ dels := hl
          rw [hl3, List.append_assoc]
        · intro a ha
          rcases List.mem_append.mp ha with h4 | h4
          · exact ⟨c, hd a h4⟩
          · exact hd2 a h4

/-- A removal sends no query to the runtime, and the only commands it hands to
`call` are delete-by-line-number commands. -/
theorem removeContainerRules_effects {σ : Type} (h : Host σ) (re : RegexpPackage)
    (s : iptablesService) (w : World σ) (id : GoString) (res : World σ × Option GoError)
    (hres : removeContainerRules h re s w id = Run.done res) :
    res.1.queries = w.queries ∧
    ∃ dels : List (List GoString),
      res.1.logged = w.logged ++ dels ∧ ∀ a ∈ dels, ∃ chain line, a = deleteArgs chain line := by
  simp only [removeContainerRules] at hres
  split_ifs at hres with hro
  · injection hres with h1
    rw [← h1]
    exact ⟨rfl, [], by simp, by simp⟩
  · cases hs : getShortId id with
    | fault f => rw [hs] at hres; cases hres
    | done shortId =>
      rw [hs] at hres
      simp only [] at hres
      cases hm : mustCompileTag re shortId with
      | fault f => rw [hm] at hres; cases hres
      | done compiled =>
        rw [hm] at hres
        simp only [] at hres
        injection hres with h1
        rw [← h1]
        exact removeFromChains_effects h s compiled s.chains w

/-! ## Lemmas: removal against the one-chain tool -/

theorem renderListing_head (chain : GoString) (rules : List GoString) :
    ∃ cs, renderListing chain rules = 'C' :: cs := by
  exact ⟨_, rfl⟩

/-- Whatever the chain of the one-chain tool holds, the removal for an id whose
first 12 characters are letters and digits lists the chain, deletes nothing and
returns `nil`: the listing begins with the line naming the chain, not with a
line number. -/
theorem removeContainerRules_chainTool_keeps_every_rule (chain : GoString)
    (re : RegexpPackage) (s : iptablesService) (w : World (List GoString)) (id : GoString)
    (hro : s.readOnly = false) (hchains : s.chains = [chain])
    (hid : 12 ≤ id.length) (hplain : (id.take 12).all Char.isAlphanum = true) :
    removeContainerRules (chainTool chain) re s w id
      = Run.done (⟨w.fw, w.logged, w.ran ++ [listArgs chain], w.queries⟩, none) := by
  obtain ⟨cs, hcs⟩ := renderListing_head chain w.fw
  have hexec : (chainTool chain).exec w.fw s.IptablesPath (listArgs chain)
      = (w.fw, renderListing chain w.fw, false) := by
    simp [chainTool]
  have hnone : findAllStringSubmatch (id.take 12) (renderListing chain w.fw) = [] := by
    rw [hcs]
    exact findAllStringSubmatch_no_leading_digit _ 'C' cs (by decide)
  simp [removeContainerRules, hro, getShortId, hid, mustCompileTag, hplain, hchains,
    removeFromChains, hexec, hnone, deleteMatches]

/-! ## Lemmas: decimal numerals -/

theorem digitValue_digitChar (d : Nat) (hd : d < 10) :
    digitValue (Nat.digitChar d) = some d := by
  interval_cases d <;> rfl

theorem numeralFrom_append (xs ys : GoString) (acc : Nat) :
    numeralFrom (xs ++ ys) acc = (numeralFrom xs acc).bind (numeralFrom ys) := by
  induction xs generalizing acc with
  | nil => rfl
  | cons c cs ih =>
    simp only [List.cons_append, numeralFrom]
    cases digitValue c with
    | none => rfl
    | some d => exact ih _

theorem toDigitsCore_append (fuel n : Nat) (ds : List Char) :
    Nat.toDigitsCore 10 fuel n ds = Nat.toDigitsCore 10 fuel n [] ++ ds := by
  induction fuel generalizing n ds with
  | zero => simp [Nat.toDigitsCore]
  | succ f ih =>
    simp only [Nat.toDigitsCore]
    split_ifs
    · rfl
    · rw [ih (n / 10) (Nat.digitChar (n % 10) :: ds), ih (n / 10) [Nat.digitChar (n % 10)],
        List.append_assoc]
      rfl

theorem numeralFrom_toDigitsCore (fuel n : Nat) (hfuel : n < fuel) :
    numeralFrom (Nat.toDigitsCore 10 fuel n []) 0 = some n ∧
    Nat.toDigitsCore 10 fuel n [] ≠ [] := by
  induction fuel generalizing n with
  | zero => omega
  | succ f ih =>
    simp only [Nat.toDigitsCore]
    split_ifs with hq
    · have hn : n < 10 := by omega
      have hmod : n % 10 = n := Nat.mod_eq_of_lt hn
      rw [hmod]
      refine ⟨?_, by simp⟩
      simp [numeralFrom, digitValue_digitChar n hn]
    · have hlt : n / 10 < f := by omega
      obtain ⟨hval, hne⟩ := ih (n / 10) hlt
      rw [toDigitsCore_append f (n / 10) [Nat.digitChar (n % 10)]]
      refine ⟨?_, by simp [hne]⟩
      rw [numeralFrom_append, hval]
      simp only [Option.some_bind, numeralFrom,
        digitValue_digitChar (n % 10) (Nat.mod_lt n (by omega))]
      congr 1
      omega

/-- The text `Nat.toDigits 10 n` denotes `n`. -/
theorem numeralValue_toDigits (n : Nat) : numeralValue (Nat.toDigits 10 n) = some n := by
  obtain ⟨hval, hne⟩ := numeralFrom_toDigitsCore (n + 1) n (by omega)
  simp only [numeralValue, Nat.toDigits]
  rw [if_neg hne]
  exact hval

/-- The text `formatInt n` is a decimal numeral of `n`. -/
theorem decimalValue_formatInt (n : Int) : decimalValue (formatInt n) = some n := by
  by_cases hneg : n < 0
  · have hfmt : formatInt n = '-' :: Nat.toDigits 10 n.natAbs := by simp [formatInt, hneg]
    have hnone : numeralValue ('-' :: Nat.toDigits 10 n.natAbs) = none := by
      simp [numeralValue, numeralFrom, digitValue]
    rw [hfmt]
    simp only [decimalValue, hnone, numeralValue_toDigits, Option.map_some']
    congr 1
    have habs : Int.ofNat n.natAbs = -n := Int.ofNat_natAbs_of_nonpos (by omega)
    rw [habs]
    omega
  · have hfmt : formatInt n = Nat.toDigits 10 n.natAbs := by simp [formatInt, hneg]
    rw [hfmt]
    simp only [decimalValue, numeralValue_toDigits]
    congr 1
    exact Int.natAbs_of_nonneg (by omega)

theorem digitValue_some (c : Char) (d : Nat) (hc : digitValue c = some d) :
    c.isDigit = true ∧ c.toNat - '0'.toNat = d ∧ c ≠ '-' ∧ c ≠ '+' := by
  unfold digitValue at hc
  split_ifs at hc with h0 h1 h2 h3 h4 h5 h6 h7 h8 h9 <;>
    (injection hc with hc; subst hc; subst_vars; decide)

theorem numeralFrom_digitsValue (text : GoString) (acc v : Nat)
    (hv : numeralFrom text acc = some v) :
    text.all Char.isDigit = true ∧ digitsValue text acc = v := by
  induction text generalizing acc with
  | nil =>
    simp only [numeralFrom] at hv
    injection hv with hv
    exact ⟨rfl, hv⟩
  | cons c cs ih =>
    simp only [numeralFrom] at hv
    cases hd : digitValue c with
    | none => rw [hd] at hv; cases hv
    | some d =>
      rw [hd] at hv
      obtain ⟨h1, h2, _, _⟩ := digitValue_some c d hd
      obtain ⟨h3, h4⟩ := ih _ hv
      refine ⟨by simp [h1, h3], ?_⟩
      rw [digitsValue, h2]
      exact h4

/-- On a run of digits that denotes a number below `2 ^ 63` the parse of the
host port gives that number. -/
theorem atoi_numeral (text : GoString) (v : Nat) (hv : numeralValue text = some v)
    (hsmall : v < 2 ^ 63) : atoi text = Int.ofNat v := by
  unfold numeralValue at hv
  split_ifs at hv with hnil
  cases text with
  | nil => exact absurd rfl hnil
  | cons c cs =>
    have hv2 := hv
    simp only [numeralFrom] at hv2
    cases hd : digitValue c with
    | none => rw [hd] at hv2; cases hv2
    | some d =>
      obtain ⟨_, _, hminus, hplus⟩ := digitValue_some c d hd
      obtain ⟨hall, hval⟩ := numeralFrom_digitsValue (c :: cs) 0 v hv
      have h1 : ¬ ((c :: cs).head? = some '-' ∨ (c :: cs).head? = some '+') := by
        simp [hminus, hplus]
      have h2 : ¬ ((c :: cs).head? = some '-') := by simp [hminus]
      have h3 : ¬ ((c :: cs) = [] ∨ ¬ (c :: cs).all Char.isDigit = true) := by
        simp only [hall, not_true_eq_false, or_false]
        simp
      simp only [atoi, if_neg h1, if_neg h2, if_neg h3, hval]
      have hs : v ≤ 9223372036854775807 := by
        have := hsmall
        norm_num at this
        omega
      simp [hs]

set_option maxRecDepth 8000

/-! ## Lemmas: the command of one pair -/

theorem hasSuffix_append (p x suffix : GoString) (hlen : x.length = suffix.length) :
    hasSuffix (p ++ x) suffix = (x == suffix) := by
  simp [hasSuffix, hlen]

theorem ruleCommand_fields (s : iptablesService) (cont : container) (r : rule)
    (port proto : GoString) (bind : portBind)
    (hproto : proto = "tcp".toList ∨ proto = "udp".toList)
    (hid : 12 ≤ cont.Id.length) (hport : bind.Port = r.HostPort) :
    ruleCommand s cont r (port ++ "/".toList ++ proto) bind = Run.done
      ["-t".toList, "nat".toList, "-A".toList, r.Chain, "-d".toList,
        (if r.HostIp = [] then "0.0.0.0/0".toList else r.HostIp), "!".toList,
        "-i".toList, s.DockerInterface, "-p".toList, proto, "-m".toList, proto,
        "--dport".toList, formatInt r.HostPort, "-j".toList, "DNAT".toList,
        "--to-destination".toList, cont.Ip ++ ":".toList ++ port,
        "-m".toList, "comment".toList, "--comment".toList,
        "'Docker ".toList ++ cont.Name ++ "[".toList ++ cont.Id.take 12 ++ "]'".toList] := by
  have hlen : ("/".toList ++ proto).length = 4 := by
    rcases hproto with h | h <;> rw [h] <;> rfl
  have hk : 4 ≤ (port ++ "/".toList ++ proto).length := by
    rw [List.append_assoc, List.length_append, hlen]; omega
  rw [ruleCommand_eq s cont r _ bind hk hid]
  have htake : (port ++ "/".toList ++ proto).take ((port ++ "/".toList ++ proto).length - 4)
      = port := by
    rw [List.append_assoc, List.length_append, hlen, Nat.add_sub_cancel, List.take_left]
  have hsuf : (if hasSuffix (port ++ "/".toList ++ proto) "/udp".toList then "udp".toList
      else "tcp".toList) = proto := by
    rw [List.append_assoc, hasSuffix_append port _ _ (by rw [hlen]; rfl)]
    rcases hproto with h | h <;> rw [h] <;> decide
  simp only [pairCommand, htake, hsuf, hport]

theorem matchingPairs_eq_nil (s : iptablesService) (cont : container)
    (hno : ∀ r ∈ rulesFor s cont.Name, ∀ kb ∈ cont.Ports, ∀ b ∈ kb.2, b.Port ≠ r.HostPort) :
    matchingPairs s cont = [] := by
  apply List.eq_nil_iff_forall_not_mem.mpr
  intro p hp
  simp only [matchingPairs, List.mem_flatMap, List.mem_map, List.mem_filter,
    decide_eq_true_eq] at hp
  obtain ⟨r, hr, kb, hkb, b, ⟨hb, hport⟩, _⟩ := hp
  exact hno r hr kb hkb b hb hport

theorem mem_matchingPairs (s : iptablesService) (cont : container) (r : rule)
    (key : GoString) (binds : List portBind) (bind : portBind)
    (hr : r ∈ rulesFor s cont.Name) (hkey : (key, binds) ∈ cont.Ports)
    (hbind : bind ∈ binds) (hport : bind.Port = r.HostPort) :
    (r, key, bind) ∈ matchingPairs s cont := by
  simp only [matchingPairs, List.mem_flatMap, List.mem_map, List.mem_filter,
    decide_eq_true_eq]
  exact ⟨r, hr, (key, binds), hkey, bind, ⟨hbind, hport⟩, rfl⟩

/-! ## C1 -/

/-- C1, the code at the failing input: chain `DOCKER` holds one rule, tagged
with the short id of the container; the tool prints `taggedListing`, whose
third line is the rule's line `1    DNAT ... [0f3a9c1e7b2d] ...` below the two
header lines. The pattern finds no match in that text, so
`removeContainerRules` runs the listing and nothing else, returns `nil`, and
the tagged rule is still in the chain; the delete command for line 1, which
the tool would have accepted, is never issued. -/
theorem removeContainerRules_deletes_nothing_below_header :
    (chainTool "DOCKER".toList).exec [taggedRule] webService.IptablesPath
        (listArgs "DOCKER".toList) = ([taggedRule], taggedListing, false) ∧
    findAllStringSubmatch (webId.take 12) taggedListing = [] ∧
    removeContainerRules (chainTool "DOCKER".toList) rejectingRegexp webService
        ⟨[taggedRule], [], [], []⟩ webId
      = Run.done (⟨[taggedRule], [], [listArgs "DOCKER".toList], []⟩, none) ∧
    (chainTool "DOCKER".toList).exec [taggedRule] webService.IptablesPath
        (deleteArgs "DOCKER".toList "1".toList) = ([], [], false) := by
  decide

/-! ## C2 -/

/-- C2: for a container whose id has at least 12 characters and whose port keys
have at least 4, `addContainerRules` returns `nil` after emitting, through
`call`, exactly the list with one command per matching pair (rule declared
under the container's name, published binding with the rule's host port), for
every firewall tool, so also when commands fail; outside read-only mode these
are the commands run. When no binding matches a declared rule, and when the
name has no declared rule, nothing is emitted and the world is unchanged. -/
theorem addContainerRules_emits_one_command_per_matching_pair {σ : Type} (h : Host σ)
    (s : iptablesService) (w : World σ) (cont : container)
    (hid : 12 ≤ cont.Id.length) (hkeys : ∀ kb ∈ cont.Ports, 4 ≤ kb.1.length) :
    ∃ w1 : World σ,
      addContainerRules h s w cont = Run.done (w1, none) ∧
      w1.logged = w.logged ++ (matchingPairs s cont).map (pairCommand s cont) ∧
      (w1.logged.length = w.logged.length + (matchingPairs s cont).length) ∧
      (s.readOnly = false →
        w1.ran = w.ran ++ (matchingPairs s cont).map (pairCommand s cont)) ∧
      ((∀ r ∈ rulesFor s cont.Name, ∀ kb ∈ cont.Ports, ∀ b ∈ kb.2, b.Port ≠ r.HostPort) →
        w1 = w) ∧
      (mapGet s.Rules cont.Name = none → w1 = w) := by
  refine ⟨callAll h s (expectedCommands s cont) w, addContainerRules_eq h s w cont hkeys hid,
    callAll_logged h s _ w, ?_, fun hro => callAll_ran h s _ w hro, ?_, ?_⟩
  · rw [callAll_logged, List.length_append, expectedCommands, List.length_map]
  · intro hno
    rw [expectedCommands, matchingPairs_eq_nil s cont hno]
    rfl
  · intro hnone
    have : matchingPairs s cont = [] := by
      simp [matchingPairs, rulesFor, hnone]
    rw [expectedCommands, this]
    rfl

/-- Witness of C2: the container of the spec's scenario, with a firewall tool
for which every command fails. -/
theorem addContainerRules_emits_one_command_per_matching_pair_witness :
    12 ≤ webContainer.Id.length ∧ (∀ kb ∈ webContainer.Ports, 4 ≤ kb.1.length) ∧
    ∃ w1 : World Unit,
      addContainerRules failingHost webService emptyWorld webContainer = Run.done (w1, none) ∧
      w1.logged = emptyWorld.logged ++
        (matchingPairs webService webContainer).map (pairCommand webService webContainer) ∧
      (w1.logged.length = emptyWorld.logged.length +
        (matchingPairs webService webContainer).length) ∧
      (webService.readOnly = false →
        w1.ran = emptyWorld.ran ++
          (matchingPairs webService webContainer).map (pairCommand webService webContainer)) ∧
      ((∀ r ∈ rulesFor webService webContainer.Name, ∀ kb ∈ webContainer.Ports, ∀ b ∈ kb.2,
          b.Port ≠ r.HostPort) → w1 = emptyWorld) ∧
      (mapGet webService.Rules webContainer.Name = none → w1 = emptyWorld) :=
  ⟨by decide, by decide,
    addContainerRules_emits_one_command_per_matching_pair failingHost webService emptyWorld
      webContainer (by decide) (by decide)⟩

/-! ## C3 -/

/-- C3: for a container with an id of at least 12 characters, a binding under
key `<P>/tcp` or `<P>/udp` with host port `H` and a rule declared under the
container's name with `HostPort` `H`, the command built for that pair appends
to the rule's chain in the NAT table, matches the rule's host ip (`0.0.0.0/0`
when empty), excludes the bridge interface, uses the protocol of the key's
suffix, matches the destination port given by a decimal numeral that denotes
`H`, redirects to `address:P` and carries the comment
`'Docker <name>[<first 12 characters of the id>]'`; every run of
`addContainerRules` that returns has emitted it, and the run returns when all
port keys have at least 4 characters. In the spec's scenario exactly one
command is emitted, `webCommand`, whatever the firewall tool answers. -/
theorem addContainerRules_command_fields {σ : Type} (h : Host σ) (s : iptablesService)
    (w : World σ) (cont : container) (r : rule) (port proto : GoString)
    (binds : List portBind) (bind : portBind)
    (hproto : proto = "tcp".toList ∨ proto = "udp".toList)
    (hid : 12 ≤ cont.Id.length)
    (hrule : r ∈ rulesFor s cont.Name)
    (hkey : (port ++ "/".toList ++ proto, binds) ∈ cont.Ports)
    (hbind : bind ∈ binds) (hport : bind.Port = r.HostPort) :
    ∃ dport : GoString,
      decimalValue dport = some r.HostPort ∧
      (ruleCommand s cont r (port ++ "/".toList ++ proto) bind = Run.done
        ["-t".toList, "nat".toList, "-A".toList, r.Chain, "-d".toList,
          (if r.HostIp = [] then "0.0.0.0/0".toList else r.HostIp), "!".toList,
          "-i".toList, s.DockerInterface, "-p".toList, proto, "-m".toList, proto,
          "--dport".toList, dport, "-j".toList, "DNAT".toList,
          "--to-destination".toList, cont.Ip ++ ":".toList ++ port,
          "-m".toList, "comment".toList, "--comment".toList,
          "'Docker ".toList ++ cont.Name ++ "[".toList ++ cont.Id.take 12 ++ "]'".toList]) ∧
      (∀ res : World σ × Option GoError, addContainerRules h s w cont = Run.done res →
        ∃ before after : List (List GoString), res.1.logged = w.logged ++ (before ++
          ["-t".toList, "nat".toList, "-A".toList, r.Chain, "-d".toList,
            (if r.HostIp = [] then "0.0.0.0/0".toList else r.HostIp), "!".toList,
            "-i".toList, s.DockerInterface, "-p".toList, proto, "-m".toList, proto,
            "--dport".toList, dport, "-j".toList, "DNAT".toList,
            "--to-destination".toList, cont.Ip ++ ":".toList ++ port,
            "-m".toList, "comment".toList, "--comment".toList,
            "'Docker ".toList ++ cont.Name ++ "[".toList ++ cont.Id.take 12 ++ "]'".toList]
          :: after)) ∧
      ((∀ kb ∈ cont.Ports, 4 ≤ kb.1.length) →
        ∃ w1 : World σ, addContainerRules h s w cont = Run.done (w1, none)) ∧
      (∀ (τ : Type) (g : Host τ) (v : World τ), ∃ v1 : World τ,
        addContainerRules g webService v webContainer = Run.done (v1, none) ∧
        v1.logged = v.logged ++ [webCommand] ∧ v1.ran = v.ran ++ [webCommand]) := by
  have hcmd := ruleCommand_fields s cont r port proto bind hproto hid hport
  refine ⟨formatInt r.HostPort, decimalValue_formatInt r.HostPort, hcmd, ?_, ?_, ?_⟩
  · intro res hres
    have hres2 := addContainerRules_done h s w cont res hres
    have hmem := mem_matchingPairs s cont r _ binds bind hrule hkey hbind hport
    have hlen : ("/".toList ++ proto).length = 4 := by
      rcases hproto with h1 | h1 <;> rw [h1] <;> rfl
    have hk : 4 ≤ (port ++ "/".toList ++ proto).length := by
      rw [List.append_assoc, List.length_append, hlen]; omega
    have heq := ruleCommand_eq s cont r (port ++ "/".toList ++ proto) bind hk hid
    rw [hcmd] at heq
    injection heq with heq
    have hmem2 : pairCommand s cont (r, port ++ "/".toList ++ proto, bind)
        ∈ expectedCommands s cont := List.mem_map_of_mem _ hmem
    rw [← heq] at hmem2
    obtain ⟨before, after, hsplit⟩ := List.mem_iff_append.mp hmem2
    refine ⟨before, after, ?_⟩
    rw [hres2, ← hsplit]
    exact callAll_logged h s _ w
  · intro hkeys
    exact ⟨_, addContainerRules_eq h s w cont hkeys hid⟩
  · intro τ g v
    have hweb : expectedCommands webService webContainer = [webCommand] := by decide
    refine ⟨callAll g webService (expectedCommands webService webContainer) v,
      addContainerRules_eq g webService v webContainer (by decide) (by decide), ?_, ?_⟩
    · rw [callAll_logged, hweb]
    · rw [callAll_ran g webService _ v rfl, hweb]

/-- Witness of C3: the rule, the binding and the container of the spec's
scenario. -/
theorem addContainerRules_command_fields_witness :
    ∃ dport : GoString,
      decimalValue dport = some (8080 : Int) ∧
      (ruleCommand webService webContainer ⟨[], 8080, "DOCKER".toList⟩
          ("80".toList ++ "/".toList ++ "tcp".toList) ⟨[], 8080⟩ = Run.done
        ["-t".toList, "nat".toList, "-A".toList, "DOCKER".toList, "-d".toList,
          "0.0.0.0/0".toList, "!".toList,
          "-i".toList, "docker0".toList, "-p".toList, "tcp".toList, "-m".toList,
          "tcp".toList,
          "--dport".toList, dport, "-j".toList, "DNAT".toList,
          "--to-destination".toList, "10.0.0.5".toList ++ ":".toList ++ "80".toList,
          "-m".toList, "comment".toList, "--comment".toList,
          "'Docker ".toList ++ "web".toList ++ "[".toList ++ webId.take 12 ++ "]'".toList]) ∧
      (∀ res : World Unit × Option GoError,
        addContainerRules quietHost webService emptyWorld webContainer = Run.done res →
        ∃ before after : List (List GoString), res.1.logged = emptyWorld.logged ++ (before ++
          ["-t".toList, "nat".toList, "-A".toList, "DOCKER".toList, "-d".toList,
            "0.0.0.0/0".toList, "!".toList,
            "-i".toList, "docker0".toList, "-p".toList, "tcp".toList, "-m".toList,
            "tcp".toList,
            "--dport".toList, dport, "-j".toList, "DNAT".toList,
            "--to-destination".toList, "10.0.0.5".toList ++ ":".toList ++ "80".toList,
            "-m".toList, "comment".toList, "--comment".toList,
            "'Docker ".toList ++ "web".toList ++ "[".toList ++ webId.take 12 ++ "]'".toList]
          :: after)) ∧
      ((∀ kb ∈ webContainer.Ports, 4 ≤ kb.1.length) →
        ∃ w1 : World Unit,
          addContainerRules quietHost webService emptyWorld webContainer
            = Run.done (w1, none)) ∧
      (∀ (τ : Type) (g : Host τ) (v : World τ), ∃ v1 : World τ,
        addContainerRules g webService v webContainer = Run.done (v1, none) ∧
        v1.logged = v.logged ++ [webCommand] ∧ v1.ran = v.ran ++ [webCommand]) :=
  addContainerRules_command_fields quietHost webService emptyWorld webContainer
    ⟨[], 8080, "DOCKER".toList⟩ "80".toList "tcp".toList [⟨[], 8080⟩] ⟨[], 8080⟩
    (Or.inl rfl) (by decide) (by decide) (by decide) (by decide) rfl

/-! ## C4 -/

/-- C4, counterexample: for an event with status `stop` on a tracked id,
`dockerEvent` returns the registry as it was, while `dieContainer` lists the
chain and deletes the entry. -/
theorem dockerEvent_ignores_stop :
    dockerEvent goneRuntime quietHost rejectingRegexp webService trackedWeb
        ⟨webId, "stop".toList⟩
      = Run.done trackedWeb ∧
    dieContainer goneRuntime quietHost rejectingRegexp webService trackedWeb webId
      = Run.done ⟨[], ⟨(), [], [listArgs "DOCKER".toList], []⟩⟩ ∧
    dockerEvent goneRuntime quietHost rejectingRegexp webService trackedWeb
        ⟨webId, "stop".toList⟩
      ≠ dieContainer goneRuntime quietHost rejectingRegexp webService trackedWeb webId := by
  decide

/-- C4, amended: `dockerEvent` is `startContainer` on the event's id when the
status is `start`, `dieContainer` on the event's id when the status is `die`,
and for every other status, `stop` included, it returns the registry
unchanged: same map, no runtime query, no firewall command. -/
theorem dockerEvent_routes_start_and_die {σ : Type} (rt : Runtime) (h : Host σ)
    (re : RegexpPackage) (s : iptablesService) (d : dockerService σ) (event : Event) :
    (event.Status = "start".toList →
      dockerEvent rt h re s d event = startContainer rt h s d event.Id) ∧
    (event.Status = "die".toList →
      dockerEvent rt h re s d event = dieContainer rt h re s d event.Id) ∧
    (event.Status ≠ "start".toList → event.Status ≠ "die".toList →
      dockerEvent rt h re s d event = Run.done d) ∧
    dockerEvent rt h re s d ⟨event.Id, "stop".toList⟩ = Run.done d := by
  refine ⟨?_, ?_, ?_, ?_⟩
  · intro hs
    simp only [dockerEvent, hs, if_true]
  · intro hd
    have hne : ¬ "die".toList = "start".toList := by decide
    simp only [dockerEvent, hd, hne, if_true, if_false]
  · intro h1 h2
    simp only [dockerEvent, h1, h2, if_false]
  · have h1 : ¬ "stop".toList = "start".toList := by decide
    have h2 : ¬ "stop".toList = "die".toList := by decide
    simp only [dockerEvent, h1, h2, if_false]

/-- Witness of C4 amended: a `start`, a `die` and a `pause` event for the
container of the scenario. -/
theorem dockerEvent_routes_start_and_die_witness :
    dockerEvent webRuntime quietHost rejectingRegexp webService emptyRegistry
        ⟨webId, "start".toList⟩
      = startContainer webRuntime quietHost webService emptyRegistry webId ∧
    dockerEvent webRuntime quietHost rejectingRegexp webService trackedWeb
        ⟨webId, "die".toList⟩
      = dieContainer webRuntime quietHost rejectingRegexp webService trackedWeb webId ∧
    dockerEvent webRuntime quietHost rejectingRegexp webService trackedWeb
        ⟨webId, "pause".toList⟩
      = Run.done trackedWeb :=
  ⟨(dockerEvent_routes_start_and_die webRuntime quietHost rejectingRegexp webService emptyRegistry
      ⟨webId, "start".toList⟩).1 rfl,
    (dockerEvent_routes_start_and_die webRuntime quietHost rejectingRegexp webService trackedWeb
      ⟨webId, "die".toList⟩).2.1 rfl,
    (dockerEvent_routes_start_and_die webRuntime quietHost rejectingRegexp webService trackedWeb
      ⟨webId, "pause".toList⟩).2.2.1 (by decide) (by decide)⟩

/-! ## C5 -/

/-- C5, counterexample: the runtime reports the container of the scenario under
the name `/web`; after `startContainer` the stored record has the name `web`,
which is not the name of the inspect response. When the response has an empty
name, or a matched port key of 2 characters, or an id of 3 characters with a
matched rule, `startContainer` stops with a slice fault and no map is left. -/
theorem startContainer_stores_name_without_first_character :
    webRuntime.InspectContainer webId = some webInfo ∧
    webInfo.Name = "/web".toList ∧
    startContainer webRuntime quietHost webService emptyRegistry webId
      = Run.done ⟨[(webId, webContainer)],
          ⟨(), [webCommand], [webCommand], [Query.inspect webId]⟩⟩ ∧
    webContainer.Name = "web".toList ∧
    webContainer.Name ≠ webInfo.Name ∧
    startContainer namelessRuntime quietHost webService emptyRegistry webId
      = Run.fault Fault.sliceBounds ∧
    startContainer shortKeyRuntime quietHost webService emptyRegistry webId
      = Run.fault Fault.sliceBounds ∧
    startContainer shortIdRuntime quietHost webService emptyRegistry webId
      = Run.fault Fault.sliceBounds := by
  decide

/-- C5, amended: for an id that is not in the map and an inspect response that,
when there is one, has a non-empty name, an id of at least 12 characters and
port keys of at least 4, `startContainer` returns, whatever the firewall tool
answers; afterwards the map has an entry for the id exactly when the inspect
succeeded, every other key reads as before, and the stored record has the id
and the address of the response, its name without the first character, and,
the port keys of the response being distinct, for each key with bindings those
bindings with the host port parsed: a host port written as a run of digits
that denotes a number below `2 ^ 63` is stored as that number. -/
theorem startContainer_tracks_inspected_container {σ : Type} (rt : Runtime) (h : Host σ)
    (s : iptablesService) (d : dockerService σ) (id : GoString)
    (habsent : mapGet d.containers id = none)
    (hwf : ∀ info, rt.InspectContainer id = some info →
      info.Name ≠ [] ∧ 12 ≤ info.Id.length ∧ ∀ kb ∈ info.Ports, 4 ≤ kb.1.length) :
    ∃ d1 : dockerService σ,
      startContainer rt h s d id = Run.done d1 ∧
      mapGet d1.containers id = (rt.InspectContainer id).map recordOf ∧
      ((mapGet d1.containers id).isSome = (rt.InspectContainer id).isSome) ∧
      (∀ k, k ≠ id → mapGet d1.containers k = mapGet d.containers k) ∧
      (∀ info, rt.InspectContainer id = some info →
        (recordOf info).Id = info.Id ∧ (recordOf info).Ip = info.IPAddress ∧
        (recordOf info).Name = info.Name.drop 1 ∧
        ((info.Ports.map Prod.fst).Nodup →
          (recordOf info).Ports =
            (info.Ports.filter fun kb => decide (kb.2 ≠ [])).map
              fun kb => (kb.1, kb.2.map storedBind))) ∧
      (∀ (b : PortBinding) (v : Nat), numeralValue b.HostPort = some v → v < 2 ^ 63 →
        (storedBind b).Ip = b.HostIp ∧ (storedBind b).Port = Int.ofNat v) := by
  have hparse : ∀ (b : PortBinding) (v : Nat), numeralValue b.HostPort = some v →
      v < 2 ^ 63 → (storedBind b).Ip = b.HostIp ∧ (storedBind b).Port = Int.ofNat v :=
    fun b v hv hsmall => ⟨rfl, atoi_numeral b.HostPort v hv hsmall⟩
  have hfields : ∀ info, rt.InspectContainer id = some info →
      (recordOf info).Id = info.Id ∧ (recordOf info).Ip = info.IPAddress ∧
      (recordOf info).Name = info.Name.drop 1 ∧
      ((info.Ports.map Prod.fst).Nodup →
        (recordOf info).Ports =
          (info.Ports.filter fun kb => decide (kb.2 ≠ [])).map
            fun kb => (kb.1, kb.2.map storedBind)) := by
    intro info _
    refine ⟨rfl, rfl, rfl, ?_⟩
    intro hnd
    have := collectPorts_distinct info.Ports [] hnd (fun _ _ => rfl)
    simpa [recordOf] using this
  have hget := getContainer_eq rt d.world id (fun info hi => (hwf info hi).1)
  cases hi : rt.InspectContainer id with
  | none =>
    refine ⟨⟨d.containers, ⟨d.world.fw, d.world.logged, d.world.ran,
      d.world.queries ++ [Query.inspect id]⟩⟩, ?_, ?_, ?_, fun _ _ => rfl, ?_, hparse⟩
    · simp only [startContainer, habsent, hget, hi]
      rfl
    · simp [habsent]
    · simp [habsent]
    · intro info hinfo
      cases hinfo
  | some info =>
    have hsl := sliceable_recordOf info (hwf info hi).2.1 (hwf info hi).2.2
    refine ⟨⟨mapSet d.containers id (recordOf info),
      callAll h s (expectedCommands s (recordOf info)) ⟨d.world.fw, d.world.logged, d.world.ran,
        d.world.queries ++ [Query.inspect id]⟩⟩, ?_, ?_, ?_, ?_, ?_, hparse⟩
    · simp only [startContainer, habsent, hget, hi, Option.map_some',
        addContainerRules_eq h s _ (recordOf info) hsl.2 hsl.1]
    · simp [mapGet_mapSet_self]
    · simp [mapGet_mapSet_self]
    · intro k hk
      exact mapGet_mapSet_ne d.containers id k _ hk
    · intro info2 hinfo2
      exact hfields info2 (by rw [hi]; exact hinfo2)

/-- Witness of C5 amended: the container of the scenario starts on an empty
registry, with a firewall tool for which every command fails. -/
theorem startContainer_tracks_inspected_container_witness :
    ∃ d1 : dockerService Unit,
      startContainer webRuntime failingHost webService emptyRegistry webId = Run.done d1 ∧
      mapGet d1.containers webId = (webRuntime.InspectContainer webId).map recordOf ∧
      ((mapGet d1.containers webId).isSome = (webRuntime.InspectContainer webId).isSome) ∧
      (∀ k, k ≠ webId → mapGet d1.containers k = mapGet emptyRegistry.containers k) ∧
      (∀ info, webRuntime.InspectContainer webId = some info →
        (recordOf info).Id = info.Id ∧ (recordOf info).Ip = info.IPAddress ∧
        (recordOf info).Name = info.Name.drop 1 ∧
        ((info.Ports.map Prod.fst).Nodup →
          (recordOf info).Ports =
            (info.Ports.filter fun kb => decide (kb.2 ≠ [])).map
              fun kb => (kb.1, kb.2.map storedBind))) ∧
      (∀ (b : PortBinding) (v : Nat), numeralValue b.HostPort = some v → v < 2 ^ 63 →
        (storedBind b).Ip = b.HostIp ∧ (storedBind b).Port = Int.ofNat v) :=
  startContainer_tracks_inspected_container webRuntime failingHost webService emptyRegistry
    webId rfl (by
      intro info hinfo
      have hweb : info = webInfo := by
        have h1 : webRuntime.InspectContainer webId = some webInfo := by decide
        rw [h1] at hinfo
        injection hinfo with h2
        exact h2.symm
      rw [hweb]
      decide)

/-! ## C6 -/

/-- C6: when the id is in the map and the removal of its rules returns `nil`,
`dieContainer` returns the map with the entry of the id deleted: the id reads
as absent, every other key reads as before. The world is the one the removal
left: no query was sent to the runtime, and the only commands handed to `call`
are the removal's delete-by-line-number commands, so no chain was created or
flushed and no rule was added. -/
theorem dieContainer_forgets_container_after_removal {σ : Type} (rt : Runtime) (h : Host σ)
    (re : RegexpPackage) (s : iptablesService) (d : dockerService σ) (id : GoString) (w1 : World σ)
    (hpresent : mapGet d.containers id ≠ none)
    (hremoved : removeContainerRules h re s d.world id = Run.done (w1, none)) :
    ∃ d1 : dockerService σ,
      dieContainer rt h re s d id = Run.done d1 ∧
      d1.containers = mapDelete d.containers id ∧
      mapGet d1.containers id = none ∧
      (∀ k, k ≠ id → mapGet d1.containers k = mapGet d.containers k) ∧
      d1.world = w1 ∧
      d1.world.queries = d.world.queries ∧
      (∃ dels : List (List GoString), d1.world.logged = d.world.logged ++ dels ∧
        ∀ a ∈ dels, ∃ chain line, a = deleteArgs chain line) := by
  have heff := removeContainerRules_effects h re s d.world id (w1, none) hremoved
  refine ⟨⟨mapDelete d.containers id, w1⟩, ?_, rfl, mapGet_mapDelete_self _ _,
    fun k hk => mapGet_mapDelete_ne _ _ _ hk, rfl, heff.1, heff.2⟩
  cases hg : mapGet d.containers id with
  | none => exact absurd hg hpresent
  | some c => simp only [dieContainer, hg, hremoved]

/-- Witness of C6: the container of the scenario dies while tracked; the
listing of the chain is empty, so the removal returns `nil`. -/
theorem dieContainer_forgets_container_after_removal_witness :
    ∃ d1 : dockerService Unit,
      dieContainer webRuntime quietHost rejectingRegexp webService trackedWeb webId = Run.done d1 ∧
      d1.containers = mapDelete trackedWeb.containers webId ∧
      mapGet d1.containers webId = none ∧
      (∀ k, k ≠ webId → mapGet d1.containers k = mapGet trackedWeb.containers k) ∧
      d1.world = ⟨(), [], [listArgs "DOCKER".toList], []⟩ ∧
      d1.world.queries = trackedWeb.world.queries ∧
      (∃ dels : List (List GoString), d1.world.logged = trackedWeb.world.logged ++ dels ∧
        ∀ a ∈ dels, ∃ chain line, a = deleteArgs chain line) :=
  dieContainer_forgets_container_after_removal webRuntime quietHost rejectingRegexp webService trackedWeb webId
    ⟨(), [], [listArgs "DOCKER".toList], []⟩ (by decide) (by decide)

/-! ## C7 -/

/-- C7, counterexample: the container of the scenario is tracked, the listing
of the chain fails, so the removal returns an error; the runtime lists no
container any more. After `dieContainer` the id is no longer a key of the
map. With a runtime that lists a container under an empty name the resync
stops with a slice fault. -/
theorem dieContainer_failed_removal_loses_entry :
    mapGet trackedWeb.containers webId = some webContainer ∧
    removeContainerRules failingHost rejectingRegexp webService trackedWeb.world webId
      = Run.done (⟨(), [], [listArgs "DOCKER".toList], []⟩,
          some (GoError.listFailed "DOCKER".toList [])) ∧
    dieContainer namelessRuntime failingHost rejectingRegexp webService trackedWeb webId
      = Run.fault Fault.sliceBounds ∧
    ∃ d1 : dockerService Unit,
      dieContainer goneRuntime failingHost rejectingRegexp webService trackedWeb webId = Run.done d1 ∧
      mapGet d1.containers webId = none :=
  ⟨by decide, by decide, by decide,
    ⟨[], ⟨(),
        [["-t".toList, "nat".toList, "-N".toList, "DOCKER".toList],
          ["-t".toList, "nat".toList, "-F".toList, "DOCKER".toList]],
        [listArgs "DOCKER".toList,
          ["-t".toList, "nat".toList, "-N".toList, "DOCKER".toList],
          ["-t".toList, "nat".toList, "-F".toList, "DOCKER".toList]],
        [Query.list]⟩⟩,
      by decide, by decide⟩

/-- C7, amended: when the id is in the map and the removal of its rules returns
an error, `dieContainer` does not delete the entry itself, it goes on to a full
resync from the world the removal left. When the list query fails the map is
the one before, so the id keeps its record. When the list query succeeds (the
inspect responses of the listed containers having a non-empty name, an id of at
least 12 characters and port keys of at least 4) the map is replaced by the
live one: a key is present exactly when it is listed and its inspect succeeds,
with the record of that inspect; so the id stays only if the runtime still
lists it. -/
theorem dieContainer_failed_removal_resyncs {σ : Type} (rt : Runtime) (h : Host σ)
    (re : RegexpPackage) (s : iptablesService) (d : dockerService σ) (id : GoString) (w1 : World σ)
    (e : GoError)
    (hpresent : mapGet d.containers id ≠ none)
    (hfailed : removeContainerRules h re s d.world id = Run.done (w1, some e)) :
    dieContainer rt h re s d id = resync rt h s ⟨d.containers, w1⟩ ∧
    (rt.ListContainers = none →
      dieContainer rt h re s d id = Run.done
        ⟨d.containers, ⟨w1.fw, w1.logged, w1.ran, w1.queries ++ [Query.list]⟩⟩) ∧
    (∀ ids, rt.ListContainers = some ids →
      (∀ i ∈ ids, ∀ info, rt.InspectContainer i = some info →
        info.Name ≠ [] ∧ 12 ≤ info.Id.length ∧ ∀ kb ∈ info.Ports, 4 ≤ kb.1.length) →
      ∃ d1 : dockerService σ,
        dieContainer rt h re s d id = Run.done d1 ∧
        (∀ k, mapGet d1.containers k =
          if k ∈ ids then (rt.InspectContainer k).map recordOf else none) ∧
        (id ∉ ids → mapGet d1.containers id = none)) := by
  have hdie : dieContainer rt h re s d id = resync rt h s ⟨d.containers, w1⟩ := by
    cases hg : mapGet d.containers id with
    | none => exact absurd hg hpresent
    | some c => simp only [dieContainer, hg, hfailed]
  refine ⟨hdie, ?_, ?_⟩
  · intro hlist
    rw [hdie]
    simp only [resync, updateContainerList_list_failed rt h s _ hlist]
  · intro ids hlist hwf
    obtain ⟨w2, err, hup, _, _⟩ := updateContainerList_eq rt h s ⟨d.containers, w1⟩ ids hlist hwf
    refine ⟨⟨liveMap rt ids [], w2⟩, ?_, fun k => liveMap_get rt ids k, ?_⟩
    · rw [hdie]
      simp only [resync, hup]
    · intro hid
      rw [liveMap_get rt ids id, if_neg hid]

/-- Witness of C7 amended: the container of the scenario is tracked and the
listing of the chain fails; the list query of `downRuntime` fails, the one of
`webRuntime` lists the container. -/
theorem dieContainer_failed_removal_resyncs_witness :
    (dieContainer downRuntime failingHost rejectingRegexp webService trackedWeb webId
      = Run.done ⟨trackedWeb.containers,
          ⟨(), [], [listArgs "DOCKER".toList], [Query.list]⟩⟩) ∧
    (∃ d1 : dockerService Unit,
      dieContainer webRuntime failingHost rejectingRegexp webService trackedWeb webId = Run.done d1 ∧
      (∀ k, mapGet d1.containers k =
        if k ∈ [webId] then (webRuntime.InspectContainer k).map recordOf else none) ∧
      (webId ∉ [webId] → mapGet d1.containers webId = none)) :=
  ⟨(dieContainer_failed_removal_resyncs downRuntime failingHost rejectingRegexp webService trackedWeb webId
      ⟨(), [], [listArgs "DOCKER".toList], []⟩ (GoError.listFailed "DOCKER".toList [])
      (by decide) (by decide)).2.1 rfl,
    (dieContainer_failed_removal_resyncs webRuntime failingHost rejectingRegexp webService trackedWeb webId
      ⟨(), [], [listArgs "DOCKER".toList], []⟩ (GoError.listFailed "DOCKER".toList [])
      (by decide) (by decide)).2.2 [webId] rfl (by
        intro i _ info hinfo
        have hweb : info = webInfo := by
          by_cases hi : i = webId
          · simp only [webRuntime, hi, if_true] at hinfo
            injection hinfo with h2
            exact h2.symm
          · simp only [webRuntime, hi, if_false] at hinfo
            cases hinfo
        rw [hweb]
        decide)⟩

/-! ## C8 -/

/-- C8, counterexample: the id is tracked and the runtime lists one container
whose inspect response has an empty name; `startContainer` on the tracked id,
and `dieContainer` on an id that is not tracked, stop with a slice fault
instead of replacing the map. So does the resync when the listed container has
a matched port key of 2 characters or an id of 3 characters. -/
theorem resync_faults_on_empty_name :
    mapGet trackedWeb.containers webId = some webContainer ∧
    startContainer namelessRuntime quietHost webService trackedWeb webId
      = Run.fault Fault.sliceBounds ∧
    mapGet emptyRegistry.containers webId = none ∧
    dieContainer namelessRuntime quietHost rejectingRegexp webService emptyRegistry webId
      = Run.fault Fault.sliceBounds ∧
    startContainer shortKeyRuntime quietHost webService trackedWeb webId
      = Run.fault Fault.sliceBounds ∧
    startContainer shortIdRuntime quietHost webService trackedWeb webId
      = Run.fault Fault.sliceBounds := by
  decide

/-- C8, amended: `startContainer` on an id that is in the map and
`dieContainer` on an id that is not are both the full resync. It sends the list
query; when that fails the registry map stays as it was; when it succeeds, the
inspect responses of the listed containers having a non-empty name, an id of
at least 12 characters and port keys of at least 4, the handler returns with
the map replaced, whatever it held: its keys are distinct, a key is present
exactly when it is listed and its inspect succeeds, with the record of that
inspect, and the world is the one `rebuildFirewall` leaves when run against the
new map after the list query and one inspect query per listed id. The handlers
return no error. -/
theorem disagreeing_event_resyncs {σ : Type} (rt : Runtime) (h : Host σ)
    (re : RegexpPackage) (s : iptablesService) (d : dockerService σ) (id : GoString) :
    (mapGet d.containers id ≠ none → startContainer rt h s d id = resync rt h s d) ∧
    (mapGet d.containers id = none → dieContainer rt h re s d id = resync rt h s d) ∧
    (rt.ListContainers = none →
      resync rt h s d = Run.done
        ⟨d.containers,
          ⟨d.world.fw, d.world.logged, d.world.ran, d.world.queries ++ [Query.list]⟩⟩) ∧
    (∀ ids, rt.ListContainers = some ids →
      (∀ i ∈ ids, ∀ info, rt.InspectContainer i = some info →
        info.Name ≠ [] ∧ 12 ≤ info.Id.length ∧ ∀ kb ∈ info.Ports, 4 ≤ kb.1.length) →
      ∃ (d1 : dockerService σ) (err : Option GoError),
        resync rt h s d = Run.done d1 ∧
        (d1.containers.map Prod.fst).Nodup ∧
        (∀ k, mapGet d1.containers k =
          if k ∈ ids then (rt.InspectContainer k).map recordOf else none) ∧
        rebuildFirewall h s
          ⟨d.world.fw, d.world.logged, d.world.ran,
            d.world.queries ++ [Query.list] ++ ids.map Query.inspect⟩
          d1.containers = Run.done (d1.world, err)) := by
  refine ⟨?_, ?_, ?_, ?_⟩
  · intro hpresent
    cases hg : mapGet d.containers id with
    | none => exact absurd hg hpresent
    | some c => simp only [startContainer, hg]
  · intro habsent
    simp only [dieContainer, habsent]
  · intro hlist
    simp only [resync, updateContainerList_list_failed rt h s d hlist]
  · intro ids hlist hwf
    obtain ⟨w2, err, hup, hre, _⟩ := updateContainerList_eq rt h s d ids hlist hwf
    refine ⟨⟨liveMap rt ids [], w2⟩, err, ?_, liveMap_nodup rt ids [] (by simp),
      fun k => liveMap_get rt ids k, hre⟩
    simp only [resync, hup]

/-- Witness of C8 amended: a start event for the tracked container of the
scenario and a die event on the empty registry, with `webRuntime`; the resync
with `downRuntime` and with `webRuntime`. -/
theorem disagreeing_event_resyncs_witness :
    startContainer webRuntime quietHost webService trackedWeb webId
      = resync webRuntime quietHost webService trackedWeb ∧
    dieContainer webRuntime quietHost rejectingRegexp webService emptyRegistry webId
      = resync webRuntime quietHost webService emptyRegistry ∧
    resync downRuntime quietHost webService trackedWeb
      = Run.done ⟨trackedWeb.containers, ⟨(), [], [], [Query.list]⟩⟩ ∧
    (∃ (d1 : dockerService Unit) (err : Option GoError),
      resync webRuntime quietHost webService trackedWeb = Run.done d1 ∧
      (d1.containers.map Prod.fst).Nodup ∧
      (∀ k, mapGet d1.containers k =
        if k ∈ [webId] then (webRuntime.InspectContainer k).map recordOf else none) ∧
      rebuildFirewall quietHost webService
        ⟨trackedWeb.world.fw, trackedWeb.world.logged, trackedWeb.world.ran,
          trackedWeb.world.queries ++ [Query.list] ++ [webId].map Query.inspect⟩
        d1.containers = Run.done (d1.world, err)) :=
  ⟨(disagreeing_event_resyncs webRuntime quietHost rejectingRegexp webService trackedWeb webId).1 (by decide),
    (disagreeing_event_resyncs webRuntime quietHost rejectingRegexp webService emptyRegistry webId).2.1 rfl,
    (disagreeing_event_resyncs downRuntime quietHost rejectingRegexp webService trackedWeb webId).2.2.1 rfl,
    (disagreeing_event_resyncs webRuntime quietHost rejectingRegexp webService trackedWeb webId).2.2.2
      [webId] rfl (by
        intro i _ info hinfo
        have hweb : info = webInfo := by
          by_cases hi : i = webId
          · simp only [webRuntime, hi, if_true] at hinfo
            injection hinfo with h2
            exact h2.symm
          · simp only [webRuntime, hi, if_false] at hinfo
            cases hinfo
        rw [hweb]
        decide)⟩

/-! ## C9 -/

/-- C9, counterexample: in read-only mode, with an id of 20 characters, a
container whose port key `80` has 2 characters and is bound to the host port
of a declared rule makes `addContainerRules`, and a rebuild over a map holding
it, stop with a slice fault instead of returning success. -/
theorem readOnly_short_port_key_faults :
    webServiceReadOnly.readOnly = true ∧ 12 ≤ shortKeyContainer.Id.length ∧
    addContainerRules quietHost webServiceReadOnly emptyWorld shortKeyContainer
      = Run.fault Fault.sliceBounds ∧
    rebuildFirewall quietHost webServiceReadOnly emptyWorld [(webId, shortKeyContainer)]
      = Run.fault Fault.sliceBounds := by
  decide

/-- C9, amended: in read-only mode, for containers whose ids have at least 12
characters and whose port keys have at least 4, `addContainerRules` and
`rebuildFirewall` return `nil`, run nothing through `exec.Command` and leave
the state of the firewall tool as it was (the commands are only printed);
`removeContainerRules` returns `nil` for every id without any effect, the
listing of the chains included. -/
theorem readOnly_runs_no_command {σ : Type} (h : Host σ) (re : RegexpPackage)
    (s : iptablesService) (w : World σ)
    (cont : container) (containers : containerMap) (id : GoString)
    (hro : s.readOnly = true)
    (hid : 12 ≤ cont.Id.length) (hkeys : ∀ kb ∈ cont.Ports, 4 ≤ kb.1.length)
    (hall : ∀ kc ∈ containers, 12 ≤ kc.2.Id.length ∧ ∀ kb ∈ kc.2.Ports, 4 ≤ kb.1.length) :
    (∃ w1 : World σ, addContainerRules h s w cont = Run.done (w1, none) ∧
      w1.ran = w.ran ∧ w1.fw = w.fw ∧ w1.logged = w.logged ++ expectedCommands s cont) ∧
    removeContainerRules h re s w id = Run.done (w, none) ∧
    (∃ w1 : World σ, rebuildFirewall h s w containers = Run.done (w1, none) ∧
      w1.ran = w.ran ∧ w1.fw = w.fw ∧
      w1.logged = w.logged ++ (newChainCommands s ++
        containers.flatMap fun kc => expectedCommands s kc.2)) := by
  refine ⟨⟨_, addContainerRules_eq h s w cont hkeys hid, ?_, ?_, ?_⟩, ?_,
    ⟨_, rebuildFirewall_readOnly h s containers w hro hall, rfl, rfl, rfl⟩⟩
  · rw [callAll_readOnly h s _ w hro]
  · rw [callAll_readOnly h s _ w hro]
  · rw [callAll_readOnly h s _ w hro]
  · simp [removeContainerRules, hro]

/-- Witness of C9 amended: the scenario's container in read-only mode, a map
holding it, and an id of 3 characters for the removal. -/
theorem readOnly_runs_no_command_witness :
    (∃ w1 : World Unit,
      addContainerRules failingHost webServiceReadOnly emptyWorld webContainer
        = Run.done (w1, none) ∧
      w1.ran = emptyWorld.ran ∧ w1.fw = emptyWorld.fw ∧
      w1.logged = emptyWorld.logged ++ expectedCommands webServiceReadOnly webContainer) ∧
    removeContainerRules failingHost rejectingRegexp webServiceReadOnly emptyWorld "abc".toList
      = Run.done (emptyWorld, none) ∧
    (∃ w1 : World Unit,
      rebuildFirewall failingHost webServiceReadOnly emptyWorld [(webId, webContainer)]
        = Run.done (w1, none) ∧
      w1.ran = emptyWorld.ran ∧ w1.fw = emptyWorld.fw ∧
      w1.logged = emptyWorld.logged ++ (newChainCommands webServiceReadOnly ++
        [(webId, webContainer)].flatMap fun kc => expectedCommands webServiceReadOnly kc.2)) :=
  readOnly_runs_no_command failingHost rejectingRegexp webServiceReadOnly emptyWorld webContainer
    [(webId, webContainer)] "abc".toList rfl (by decide) (by decide) (by decide)

/-! ## C10 -/

/-- C10, counterexample: an id of 3 characters makes `getShortId` and
`removeContainerRules` (read-only mode off) stop with a slice fault, a matched
port key of 2 characters does the same to `addContainerRules`, the empty name
to the conversion of the inspect response. An id of 20 characters that starts
with twelve `(` is pasted into the pattern, which `regexp.MustCompile` rejects:
`removeContainerRules` stops with that panic. -/
theorem slicing_faults_on_short_inputs :
    getShortId "abc".toList = Run.fault Fault.sliceBounds ∧
    removeContainerRules quietHost rejectingRegexp webService emptyWorld "abc".toList
      = Run.fault Fault.sliceBounds ∧
    addContainerRules quietHost webService emptyWorld shortKeyContainer
      = Run.fault Fault.sliceBounds ∧
    toContainer ⟨webId, [], "10.0.0.5".toList, []⟩ = Run.fault Fault.sliceBounds ∧
    12 ≤ parenId.length ∧
    tagPattern (parenId.take 12) = "^(\\d+).*\\[((((((((((((\\]".toList ∧
    removeContainerRules quietHost rejectingRegexp webService emptyWorld parenId
      = Run.fault Fault.regexpCompile := by
  decide

/-- C10, amended: for an id of at least 12 characters `getShortId` returns its
first 12 characters and `removeContainerRules` never stops with a slice fault;
it returns exactly when read-only mode is on or `regexp.MustCompile` accepts
the pattern built from the short id, which it does whenever the short id is
made of letters and digits. For a container with an id of at least 12
characters and port keys of at least 4 `addContainerRules` returns; for a
non-empty name the conversion of the inspect response returns. -/
theorem no_slice_fault_on_well_formed_input {σ : Type} (h : Host σ) (re : RegexpPackage)
    (s : iptablesService) (w : World σ) (id : GoString) (cont : container)
    (info : ContainerInfo)
    (hid : 12 ≤ id.length) (hcid : 12 ≤ cont.Id.length)
    (hkeys : ∀ kb ∈ cont.Ports, 4 ≤ kb.1.length) (hname : info.Name ≠ []) :
    getShortId id = Run.done (id.take 12) ∧
    removeContainerRules h re s w id ≠ Run.fault Fault.sliceBounds ∧
    ((∃ res, removeContainerRules h re s w id = Run.done res) ↔
      (s.readOnly = true ∨ (id.take 12).all Char.isAlphanum = true ∨
        (re.compileOther (tagPattern (id.take 12))).isSome = true)) ∧
    ((id.take 12).all Char.isAlphanum = true →
      ∃ res, removeContainerRules h re s w id = Run.done res) ∧
    (∃ w1 : World σ, addContainerRules h s w cont = Run.done (w1, none)) ∧
    (∃ c : container, toContainer info = Run.done c ∧ c.Name = info.Name.drop 1) := by
  have hshort : getShortId id = Run.done (id.take 12) := by simp [getShortId, hid]
  have hiff : (∃ res, removeContainerRules h re s w id = Run.done res) ↔
      (s.readOnly = true ∨ (id.take 12).all Char.isAlphanum = true ∨
        (re.compileOther (tagPattern (id.take 12))).isSome = true) := by
    by_cases hro : s.readOnly = true
    · simp [removeContainerRules, hro]
    · by_cases hplain : (id.take 12).all Char.isAlphanum = true
      · simp only [removeContainerRules, hro, hshort, mustCompileTag, hplain, if_true, if_false]
        simp
      · cases hc : re.compileOther (tagPattern (id.take 12)) with
        | none =>
          simp only [removeContainerRules, hro, hshort, mustCompileTag, hplain, hc, if_false]
          simp
        | some compiled =>
          simp only [removeContainerRules, hro, hshort, mustCompileTag, hplain, hc, if_false]
          simp
  refine ⟨hshort, ?_, hiff, fun hplain => hiff.mpr (Or.inr (Or.inl hplain)),
    ⟨_, addContainerRules_eq h s w cont hkeys hcid⟩, ?_⟩
  · by_cases hro : s.readOnly = true
    · simp [removeContainerRules, hro]
    · by_cases hplain : (id.take 12).all Char.isAlphanum = true
      · simp only [removeContainerRules, hro, hshort, mustCompileTag, hplain, if_true, if_false]
        simp
      · cases hc : re.compileOther (tagPattern (id.take 12)) with
        | none =>
          simp only [removeContainerRules, hro, hshort, mustCompileTag, hplain, hc, if_false]
          simp
        | some compiled =>
          simp only [removeContainerRules, hro, hshort, mustCompileTag, hplain, hc, if_false]
          simp
  · have hlen : 1 ≤ info.Name.length := by
      cases hn : info.Name with
      | nil => exact absurd hn hname
      | cons c cs => simp
    exact ⟨_, by simp only [toContainer, hlen, if_true]; rfl, rfl⟩

/-- Witness of C10 amended: the id and the container of the spec's scenario and
an inspect response named `/web`. -/
theorem no_slice_fault_on_well_formed_input_witness :
    getShortId webId = Run.done (webId.take 12) ∧
    removeContainerRules quietHost rejectingRegexp webService emptyWorld webId
      ≠ Run.fault Fault.sliceBounds ∧
    ((∃ res, removeContainerRules quietHost rejectingRegexp webService emptyWorld webId
        = Run.done res) ↔
      (webService.readOnly = true ∨ (webId.take 12).all Char.isAlphanum = true ∨
        (rejectingRegexp.compileOther (tagPattern (webId.take 12))).isSome = true)) ∧
    ((webId.take 12).all Char.isAlphanum = true →
      ∃ res, removeContainerRules quietHost rejectingRegexp webService emptyWorld webId
        = Run.done res) ∧
    (∃ w1 : World Unit,
      addContainerRules quietHost webService emptyWorld webContainer = Run.done (w1, none)) ∧
    (∃ c : container,
      toContainer ⟨webId, "/web".toList, "10.0.0.5".toList, []⟩ = Run.done c ∧
      c.Name = ("/web".toList).drop 1) :=
  no_slice_fault_on_well_formed_input quietHost rejectingRegexp webService emptyWorld webId
    webContainer ⟨webId, "/web".toList, "10.0.0.5".toList, []⟩ (by decide) (by decide)
    (by decide) (by decide)

/-! ## Removal against the one-chain tool -/

/-- Witness of `removeContainerRules_chainTool_keeps_every_rule`: a chain with
two rules tagged for the container of the scenario and one foreign rule. -/
theorem removeContainerRules_chainTool_keeps_every_rule_witness :
    removeContainerRules (chainTool "DOCKER".toList) rejectingRegexp webService
        ⟨[taggedRule, "ACCEPT     all  --  0.0.0.0/0            0.0.0.0/0".toList, taggedRule],
          [], [], []⟩ webId
      = Run.done
          (⟨[taggedRule, "ACCEPT     all  --  0.0.0.0/0            0.0.0.0/0".toList, taggedRule],
            [], [] ++ [listArgs "DOCKER".toList], []⟩, none) :=
  removeContainerRules_chainTool_keeps_every_rule "DOCKER".toList rejectingRegexp webService
    ⟨[taggedRule, "ACCEPT     all  --  0.0.0.0/0            0.0.0.0/0".toList, taggedRule],
      [], [], []⟩ webId rfl rfl (by decide) (by decide)

end DockerIptables
